import Mathlib

/-!
# Verification of the PrairieLearn scraper's core extraction logic

A shallow embedding of the deadline-extraction core of the scraper
(`scraper.py`) and of the Notion sync decision (`notion_helper.py`).

Conventions of the embedding:
* Python `datetime` values localized to the single fixed timezone
  (`America/Vancouver`) are modelled as civil timestamps `PLDateTime`
  (year/month/day/hour/minute/second).  Comparison of two aware datetimes
  in the same zone is modelled by lexicographic comparison of the civil
  fields (faithful away from DST transition edges, which no claim touches).
* Python functions that may raise and catch `ValueError` internally are
  modelled as total functions into `Option`; an exception caught by
  `except ValueError: pass` is the `none` branch.
* HTML access (BeautifulSoup) is abstracted to the data it yields: a popover
  payload is the list of its `<tr>` rows, each row the list of its `<td>`
  cell texts; a table-body row records whether it carries the group-heading
  marker `th`, its `td.align-middle` cell texts, and its popover payload.
* The two ambient clock reads of the source (`datetime.now(TIMEZONE)` in
  `_scrape_from_popover` and `datetime.now().year` in `_parse_date`) are
  made explicit parameters `now` and `year`.
-/

/-- ASCII whitespace, modelling Python's `\s` / `str.strip()` character
class on the ASCII range. -/
def isSpaceChar (c : Char) : Bool :=
  c = ' ' || c = '\t' || c = '\n' || c = '\x0b' || c = '\x0c' || c = '\r'

def isDigitChar (c : Char) : Bool :=
  '0' ≤ c && c ≤ '9'

/-- Numeric value of a decimal digit character. -/
def digitVal (c : Char) : Nat :=
  c.toNat - '0'.toNat

/-- The decimal digit character for `d % 10` (used for zero-padded
`strftime`-style formatting). -/
def digitChar10 (d : Nat) : Char :=
  match d with
  | 0 => '0' | 1 => '1' | 2 => '2' | 3 => '3' | 4 => '4'
  | 5 => '5' | 6 => '6' | 7 => '7' | 8 => '8' | _ => '9'

/-- Lower-casing of ASCII letters (Python's regexes for `%a`/`%b` are
compiled with `IGNORECASE`). -/
def lowerChar (c : Char) : Char :=
  if 'A' ≤ c ∧ c ≤ 'Z' then Char.ofNat (c.toNat + 32) else c

/-- A civil timestamp in the fixed institutional timezone. -/
structure PLDateTime where
  year : Nat
  month : Nat
  day : Nat
  hour : Nat
  minute : Nat
  second : Nat
deriving DecidableEq, Repr

/-- Strict order on aware datetimes of the same zone: lexicographic on the
civil fields. -/
def PLDateTime.Lt (a b : PLDateTime) : Prop :=
  a.year < b.year ∨ (a.year = b.year ∧
    (a.month < b.month ∨ (a.month = b.month ∧
      (a.day < b.day ∨ (a.day = b.day ∧
        (a.hour < b.hour ∨ (a.hour = b.hour ∧
          (a.minute < b.minute ∨ (a.minute = b.minute ∧
            a.second < b.second)))))))))

instance (a b : PLDateTime) : Decidable (PLDateTime.Lt a b) := by
  unfold PLDateTime.Lt; infer_instance

/-- `a ≤ b` for datetimes, as the negation of strict order (Python's
`>=` on datetimes is the total-order complement of `<`). -/
def PLDateTime.Le (a b : PLDateTime) : Prop :=
  ¬ PLDateTime.Lt b a

instance (a b : PLDateTime) : Decidable (PLDateTime.Le a b) := by
  unfold PLDateTime.Le; infer_instance

theorem PLDateTime.lt_irrefl (a : PLDateTime) : ¬ PLDateTime.Lt a a := by
  cases a; simp [PLDateTime.Lt]

theorem PLDateTime.le_refl (a : PLDateTime) : PLDateTime.Le a a :=
  PLDateTime.lt_irrefl a

theorem PLDateTime.lt_asymm {a b : PLDateTime}
    (h : PLDateTime.Lt a b) : ¬ PLDateTime.Lt b a := by
  cases a; cases b; simp [PLDateTime.Lt] at *; omega

theorem PLDateTime.le_trans {a b c : PLDateTime}
    (h1 : PLDateTime.Le a b) (h2 : PLDateTime.Le b c) : PLDateTime.Le a c := by
  cases a; cases b; cases c
  simp [PLDateTime.Le, PLDateTime.Lt] at *; omega

theorem PLDateTime.le_antisymm {a b : PLDateTime}
    (h1 : PLDateTime.Le a b) (h2 : PLDateTime.Le b a) : a = b := by
  cases a; cases b
  simp [PLDateTime.Le, PLDateTime.Lt] at *; omega

theorem PLDateTime.lt_of_lt_of_le {a b c : PLDateTime}
    (h1 : PLDateTime.Lt a b) (h2 : PLDateTime.Le b c) : PLDateTime.Lt a c := by
  cases a; cases b; cases c
  simp [PLDateTime.Le, PLDateTime.Lt] at *; omega

/-- Python `str.strip()` on a character list. -/
def stripChars (cs : List Char) : List Char :=
  ((cs.dropWhile isSpaceChar).reverse.dropWhile isSpaceChar).reverse

/-- `str.strip()` on strings. -/
def pstrip (s : String) : String :=
  ⟨stripChars s.data⟩

/-- One attempted match of the pattern from
`re.sub(r"\s*\(?(PST|PDT)\)?", "", date_str)` at the head of the list:
greedy whitespace, an optional opening paren, the literal `PST` or `PDT`,
an optional closing paren.  Returns the remainder after the match. -/
def tryTZMatch (cs : List Char) : Option (List Char) :=
  let cs1 := cs.dropWhile isSpaceChar
  let cs2 := match cs1 with
             | '(' :: rest => rest
             | _ => cs1
  match cs2 with
  | 'P' :: 'S' :: 'T' :: rest =>
      some (match rest with | ')' :: rest2 => rest2 | _ => rest)
  | 'P' :: 'D' :: 'T' :: rest =>
      some (match rest with | ')' :: rest2 => rest2 | _ => rest)
  | _ => none

/-- `re.sub(r"\s*\(?(PST|PDT)\)?", "", date_str)`: scan left to right,
deleting each leftmost match and continuing after it.  Every match consumes
at least one character, so the input length is enough fuel. -/
def subTZAux : Nat → List Char → List Char
  | 0, cs => cs
  | _ + 1, [] => []
  | fuel + 1, c :: rest =>
      match tryTZMatch (c :: rest) with
      | some rest2 => subTZAux fuel rest2
      | none => c :: subTZAux fuel rest

def subTZ (cs : List Char) : List Char :=
  subTZAux cs.length cs

/-- The cleaned date string of `_parse_date` (line 75):
`re.sub(r"\s*\(?(PST|PDT)\)?", "", date_str).strip()`. -/
def cleanDateStr (s : String) : List Char :=
  stripChars (subTZ s.data)

/-- `re.search(r"[+-]\d{2}$", date_str)` (line 80): the string ends in a
sign followed by two digits. -/
def hasOffsetSuffix (cs : List Char) : Bool :=
  match cs.reverse with
  | d2 :: d1 :: c :: _ =>
      isDigitChar d2 && isDigitChar d1 && (c = '+' || c = '-')
  | _ => false

/-- `date_str[:-3]`. -/
def dropOffsetSuffix (cs : List Char) : List Char :=
  cs.take (cs.length - 3)

/-- One numeric `strptime` field.  CPython's `_strptime` compiles e.g. `%H`
to `2[0-3]|[0-1]\d|\d`: a two-digit value in the field's range, else a
single digit (with `0` excluded for `%m`/`%d`, whose single-digit branch is
`[1-9]`).  In the two fixed formats used by the scraper every numeric field
is followed by a non-digit delimiter or the end of the string, so
committing to the two-digit branch when it applies coincides with the
regex's backtracking behaviour. -/
def parseField (lo hi : Nat) (zeroOk : Bool) :
    List Char → Option (Nat × List Char)
  | c1 :: c2 :: rest =>
      if isDigitChar c1 ∧ isDigitChar c2 ∧
          lo ≤ 10 * digitVal c1 + digitVal c2 ∧
          10 * digitVal c1 + digitVal c2 ≤ hi then
        some (10 * digitVal c1 + digitVal c2, rest)
      else if isDigitChar c1 ∧ (zeroOk ∨ c1 ≠ '0') then
        some (digitVal c1, c2 :: rest)
      else
        none
  | [c1] =>
      if isDigitChar c1 ∧ (zeroOk ∨ c1 ≠ '0') then
        some (digitVal c1, [])
      else
        none
  | [] => none

/-- `%Y`: exactly four digits. -/
def parseYear4 : List Char → Option (Nat × List Char)
  | a :: b :: c :: d :: rest =>
      if isDigitChar a ∧ isDigitChar b ∧ isDigitChar c ∧ isDigitChar d then
        some (1000 * digitVal a + 100 * digitVal b + 10 * digitVal c +
              digitVal d, rest)
      else
        none
  | _ => none

/-- A literal non-whitespace character of the format string. -/
def expectChar (c : Char) : List Char → Option (List Char)
  | x :: rest => if x = c then some rest else none
  | [] => none

/-- Whitespace in a `strptime` format string matches `\s+`. -/
def expectWs : List Char → Option (List Char)
  | x :: rest =>
      if isSpaceChar x then some (rest.dropWhile isSpaceChar) else none
  | [] => none

/-- A three-letter name field (`%a` / `%b`), matched case-insensitively
against a fixed list; yields the index of the name found. -/
def parseAbbrev (names : List String) : List Char → Option (Nat × List Char)
  | a :: b :: c :: rest =>
      match names.findIdx? (· = String.mk [lowerChar a, lowerChar b, lowerChar c]) with
      | some i => some (i, rest)
      | none => none
  | _ => none

def weekdayNames : List String :=
  ["mon", "tue", "wed", "thu", "fri", "sat", "sun"]

def monthNames : List String :=
  ["jan", "feb", "mar", "apr", "may", "jun",
   "jul", "aug", "sep", "oct", "nov", "dec"]

def isLeapYear (y : Nat) : Bool :=
  y % 4 = 0 && (y % 100 ≠ 0 || y % 400 = 0)

/-- Number of days of a month, as validated by the `datetime` constructor. -/
def daysInMonth (y m : Nat) : Nat :=
  if m = 2 then (if isLeapYear y then 29 else 28)
  else if m = 4 ∨ m = 6 ∨ m = 9 ∨ m = 11 then 30
  else 31

/-- Decimal digits by repeated division; the fuel bounds the number of
digits, and `n` itself is always enough fuel. -/
def natDigitsAux : Nat → Nat → List Char
  | 0, _ => []
  | fuel + 1, n =>
      if n < 10 then [digitChar10 n]
      else natDigitsAux fuel (n / 10) ++ [digitChar10 (n % 10)]

/-- Decimal digits of a natural number, as produced by Python's
`f"{current_year}"` interpolation. -/
def natDigits (n : Nat) : List Char :=
  natDigitsAux (n + 1) n

/-- `datetime.strptime(date_str, "%Y-%m-%d %H:%M:%S")` followed by the
`datetime` constructor's range validation.  A `ValueError` from either is
`none`. -/
def strptimeISO (cs : List Char) : Option PLDateTime :=
  match parseYear4 cs with
  | none => none
  | some (y, cs1) =>
  match expectChar '-' cs1 with
  | none => none
  | some cs2 =>
  match parseField 1 12 false cs2 with
  | none => none
  | some (mo, cs3) =>
  match expectChar '-' cs3 with
  | none => none
  | some cs4 =>
  match parseField 1 31 false cs4 with
  | none => none
  | some (d, cs5) =>
  match expectWs cs5 with
  | none => none
  | some cs6 =>
  match parseField 0 23 true cs6 with
  | none => none
  | some (h, cs7) =>
  match expectChar ':' cs7 with
  | none => none
  | some cs8 =>
  match parseField 0 59 true cs8 with
  | none => none
  | some (mi, cs9) =>
  match expectChar ':' cs9 with
  | none => none
  | some cs10 =>
  match parseField 0 61 true cs10 with
  | none => none
  | some (s, cs11) =>
    if cs11 = [] ∧ 1 ≤ y ∧ d ≤ daysInMonth y mo ∧ s ≤ 59 then
      some ⟨y, mo, d, h, mi, s⟩
    else
      none

/-- `datetime.strptime(f"{date_str} {current_year}", "%H:%M, %a, %b %d %Y")`
on the already-concatenated character list, followed by the `datetime`
constructor's range validation. -/
def strptimeHuman (cs : List Char) : Option PLDateTime :=
  match parseField 0 23 true cs with
  | none => none
  | some (h, cs1) =>
  match expectChar ':' cs1 with
  | none => none
  | some cs2 =>
  match parseField 0 59 true cs2 with
  | none => none
  | some (mi, cs3) =>
  match expectChar ',' cs3 with
  | none => none
  | some cs4 =>
  match expectWs cs4 with
  | none => none
  | some cs5 =>
  match parseAbbrev weekdayNames cs5 with
  | none => none
  | some (_, cs6) =>
  match expectChar ',' cs6 with
  | none => none
  | some cs7 =>
  match expectWs cs7 with
  | none => none
  | some cs8 =>
  match parseAbbrev monthNames cs8 with
  | none => none
  | some (mi0, cs9) =>
  match expectWs cs9 with
  | none => none
  | some cs10 =>
  match parseField 1 31 false cs10 with
  | none => none
  | some (d, cs11) =>
  match expectWs cs11 with
  | none => none
  | some cs12 =>
  match parseYear4 cs12 with
  | none => none
  | some (y, cs13) =>
    if cs13 = [] ∧ 1 ≤ y ∧ d ≤ daysInMonth y (mi0 + 1) then
      some ⟨y, mi0 + 1, d, h, mi, 0⟩
    else
      none

/-- The character list handed to the ISO attempt: the cleaned string with a
trailing numeric offset suffix removed (lines 80-81).  Note the source
reassigns `date_str`, so a removed suffix stays removed for the human
attempt as well. -/
def isoCandidate (s : String) : List Char :=
  let cs := cleanDateStr s
  if hasOffsetSuffix cs then dropOffsetSuffix cs else cs

/-- `_parse_date` (scraper.py lines 69-96).  `currentYear` is the ambient
`datetime.now().year` read on line 90.  Every failure path of the source
returns `None`; no exception escapes. -/
def parse_date (s : String) (currentYear : Nat) : Option PLDateTime :=
  if s = "" ∨ s = "—" then none
  else
    let cs := isoCandidate s
    match strptimeISO cs with
    | some t => some t
    | none =>
        match strptimeHuman (cs ++ ' ' :: natDigits currentYear) with
        | some t => some t
        | none => none

/-- One attempted match, at the head of the list, of
`(\d+%)\s+<keyword>\s+(.+)` (the patterns of `_parse_available_credit`,
lines 112 and 117; `kw` is `until` or `starting from`, spaces in it
literal).  Returns capture group 2.  `.` does not match a newline; the
greedy `\s+` before group 2 means group 2 starts at the first
non-whitespace character after the keyword (an all-whitespace tail can
make the regex backtrack into a whitespace-only group 2, which the date
parser then rejects exactly as it rejects our `none`). -/
def matchCreditAt (kw : List Char) (cs : List Char) : Option (List Char) :=
  let ds := cs.takeWhile isDigitChar
  if ds = [] then none
  else
    match cs.drop ds.length with
    | '%' :: cs1 =>
        let ws1 := cs1.takeWhile isSpaceChar
        if ws1 = [] then none
        else if (cs1.drop ws1.length).take kw.length = kw then
          let cs2 := (cs1.drop ws1.length).drop kw.length
          let ws2 := cs2.takeWhile isSpaceChar
          if ws2 = [] then none
          else
            match cs2.drop ws2.length with
            | [] => none
            | c :: rest => some ((c :: rest).takeWhile (· ≠ '\n'))
        else none
    | _ => none

/-- `re.search`: try the pattern at each position, left to right. -/
def searchCredit (kw : List Char) : List Char → Option (List Char)
  | [] => none
  | c :: rest =>
      match matchCreditAt kw (c :: rest) with
      | some g => some g
      | none => searchCredit kw rest

/-- `_parse_available_credit` (lines 98-121): extract a deadline from
`<percent>% until <date>` and an unlock date from
`<percent>% starting from <date>`.  Returns `(deadline, unlock_date)`. -/
def parse_available_credit (credit_text : String) (year : Nat) :
    Option PLDateTime × Option PLDateTime :=
  if credit_text = "" ∨ pstrip credit_text = "None" then (none, none)
  else
    let deadline :=
      match searchCredit "until".data credit_text.data with
      | some g2 => parse_date ⟨g2⟩ year
      | none => none
    let unlock :=
      match searchCredit "starting from".data credit_text.data with
      | some g2 => parse_date ⟨g2⟩ year
      | none => none
    (deadline, unlock)

/-- The loop body of `_scrape_from_popover` (lines 141-159), carrying the
accumulators `most_relevant` and `unlock_date`. -/
def popoverLoop (year : Nat) (now : PLDateTime) :
    List (List String) → Option PLDateTime → Option PLDateTime →
    Option PLDateTime × Option PLDateTime
  | [], most, unl => (most, unl)
  | cells :: rest, most, unl =>
      if cells.length < 3 then popoverLoop year now rest most unl
      else
        let percentage := pstrip (cells.getD 0 "")
        let deadline := parse_date (pstrip (cells.getD 2 "")) year
        let parsedUnlock := parse_date (pstrip (cells.getD 1 "")) year
        let unl1 := match parsedUnlock with
                    | some u => some u
                    | none => unl
        let most1 :=
          match deadline with
          | some d =>
              if PLDateTime.Le now d ∧ percentage = "100%" then
                match most with
                | none => some d
                | some m => if PLDateTime.Lt d m then some d else some m
              else most
          | none => most
        popoverLoop year now rest most1 unl1

/-- `_scrape_from_popover` (lines 123-161).  The popover payload is `none`
when the row has no popover button or no `data-bs-content` attribute, else
the list of `<tr>` rows of the fragment, each as its `<td>` texts.  The
first row is a header and is skipped.  Returns
`(most_relevant, unlock_date)`. -/
def scrape_from_popover (popover : Option (List (List String)))
    (now : PLDateTime) (year : Nat) :
    Option PLDateTime × Option PLDateTime :=
  match popover with
  | none => (none, none)
  | some rows => popoverLoop year now (rows.drop 1) none none

/-- Specification-side description of the eligible due dates of a list of
tier rows: rows with at least three cells, percentage text exactly `100%`,
and a parseable due date not earlier than `now`. -/
def popoverDueList (l : List (List String)) (now : PLDateTime)
    (year : Nat) : List PLDateTime :=
  l.filterMap fun cells =>
    if cells.length < 3 then none
    else
      match parse_date (pstrip (cells.getD 2 "")) year with
      | some d =>
          if PLDateTime.Le now d ∧ pstrip (cells.getD 0 "") = "100%" then
            some d
          else none
      | none => none

/-- The eligible due dates of a popover payload: its tiers (post-header
rows) with percentage `100%` and a parseable, not-yet-past due date. -/
def dueCandidates (rows : List (List String)) (now : PLDateTime)
    (year : Nat) : List PLDateTime :=
  popoverDueList (rows.drop 1) now year

/-- Specification-side description of the unlock dates parsed from a list
of tier rows: every parseable unlock cell of every row with at least three
cells, regardless of its percentage or due date. -/
def popoverUnlockList (l : List (List String)) (year : Nat) :
    List PLDateTime :=
  l.filterMap fun cells =>
    if cells.length < 3 then none
    else parse_date (pstrip (cells.getD 1 "")) year

/-- The unlock dates parsed while scanning a popover payload, in scan
order. -/
def unlockParses (rows : List (List String)) (year : Nat) :
    List PLDateTime :=
  popoverUnlockList (rows.drop 1) year

/-- The eligible due dates of an optional popover payload. -/
def dueCandidatesOpt (popover : Option (List (List String)))
    (now : PLDateTime) (year : Nat) : List PLDateTime :=
  match popover with
  | none => []
  | some rows => dueCandidates rows now year

/-- The running-minimum step of the popover scan (lines 158-159): keep the
smaller deadline, the earlier-encountered one on ties. -/
def minStep (acc : Option PLDateTime) (d : PLDateTime) :
    Option PLDateTime :=
  match acc with
  | none => some d
  | some m => if PLDateTime.Lt d m then some d else some m

/-- The inline-summary extraction of `scrape_course` (lines 216-224): the
third `td.align-middle` cell's text, if the row has one, run through
`_parse_available_credit`. -/
def inlineCredit (nameCells : List String) (year : Nat) :
    Option PLDateTime × Option PLDateTime :=
  if 3 ≤ nameCells.length then
    parse_available_credit (pstrip (nameCells.getD 2 "")) year
  else (none, none)

/-- The per-row deadline resolution of `scrape_course` (lines 216-232):
inline summary first; if it yields no due date, the popover is scraped,
its due date is taken, and its unlock date is taken only when the inline
path produced none. -/
def resolveRow (nameCells : List String)
    (popover : Option (List (List String)))
    (now : PLDateTime) (year : Nat) :
    Option PLDateTime × Option PLDateTime :=
  let inl := inlineCredit nameCells year
  match inl.1 with
  | some d => (some d, inl.2)
  | none =>
      let pv := scrape_from_popover popover now year
      (pv.1, match inl.2 with
             | some u => some u
             | none => pv.2)

/-- One `<tr>` of the assessments table body: the text of a
`th[data-testid="assessment-group-heading"]` if the row carries one, the
texts of its `td.align-middle` cells, and its popover payload. -/
structure RawRow where
  headerName : Option String
  nameCells : List String
  popover : Option (List (List String))
deriving DecidableEq

/-- The sibling walk under one header (lines 201-247): collect member rows
until the next header row; a row with fewer than two `td.align-middle`
cells is skipped without stopping the walk. -/
def groupMembers : List RawRow → List RawRow
  | [] => []
  | r :: rest =>
      if r.headerName.isSome then []
      else if 2 ≤ r.nameCells.length then r :: groupMembers rest
      else groupMembers rest

/-- The grouping skeleton of `scrape_course` (lines 187-247): one group per
header row (in document order, as `find_all` returns them), each with the
member rows walked from its following siblings. -/
def groupRows : List RawRow → List (String × List RawRow)
  | [] => []
  | r :: rest =>
      match r.headerName with
      | some h => (pstrip h, groupMembers rest) :: groupRows rest
      | none => groupRows rest

/-- `AssignmentData` (notion_helper.py lines 19-27). -/
structure AssignmentData where
  course_name : String
  assignment_name : String
  project : String
  due : Option PLDateTime
  reminder : Option PLDateTime
deriving DecidableEq

/-- Record construction for one member row (lines 209-245): the name is the
second `td.align-middle` cell's text, the full name is
`f"{project_name} - {name}"`, due and reminder come from the per-row
resolution. -/
def buildAssignment (courseName projectName : String)
    (now : PLDateTime) (year : Nat) (r : RawRow) : AssignmentData :=
  let name := pstrip (r.nameCells.getD 1 "")
  let res := resolveRow r.nameCells r.popover now year
  { course_name := courseName
    assignment_name := projectName ++ " - " ++ name
    project := projectName
    due := res.1
    reminder := res.2 }

/-- The pure core of `scrape_course` (lines 187-249), from the table-body
rows to the assignment records, in document order. -/
def scrape_course (courseName : String) (rows : List RawRow)
    (now : PLDateTime) (year : Nat) : List AssignmentData :=
  (groupRows rows).flatMap fun g =>
    g.2.map (buildAssignment courseName g.1 now year)

/-- Zero-padded two-digit decimal, as `strftime` prints `%m %d %H %M %S`
for in-range values. -/
def pad2 (n : Nat) : List Char :=
  [digitChar10 (n / 10 % 10), digitChar10 (n % 10)]

/-- Zero-padded four-digit decimal, as `strftime` prints `%Y` for years up
to 9999. -/
def pad4 (n : Nat) : List Char :=
  [digitChar10 (n / 1000 % 10), digitChar10 (n / 100 % 10),
   digitChar10 (n / 10 % 10), digitChar10 (n % 10)]

/-- `due.strftime("%Y-%m-%d")` (notion_helper.py lines 158-161): the
calendar date only; the time of day is discarded. -/
def dateStr (t : PLDateTime) : String :=
  ⟨pad4 t.year ++ '-' :: (pad2 t.month ++ '-' :: pad2 t.day)⟩

/-- The outward effect of one `update_or_create_assignment` call. -/
inductive NotionAction where
  | update (pageId : String) (due : Option String)
  | create (name : String) (due : Option String) (reminder : Option String)
  | skip
deriving DecidableEq

/-- Lookup in the `existing_assignments` dict: entries are
`(name, (page id, stored due date string or None))`. -/
def lookupExisting (existing : List (String × String × Option String))
    (name : String) : Option (String × Option String) :=
  match existing.find? (fun e => e.1 = name) with
  | some e => some e.2
  | none => none

/-- `update_or_create_assignment` (notion_helper.py lines 151-210), as the
decision it takes: update the page's due date when the name exists and the
stored due string differs from the new date-only string; create a page
with date-only due and reminder strings when the name is new; otherwise do
nothing. -/
def update_or_create_assignment (a : AssignmentData)
    (existing : List (String × String × Option String)) : NotionAction :=
  let dueDateStr := a.due.map dateStr
  let reminderDateStr := a.reminder.map dateStr
  match lookupExisting existing a.assignment_name with
  | some (pageId, storedDue) =>
      if storedDue ≠ dueDateStr then NotionAction.update pageId dueDateStr
      else NotionAction.skip
  | none =>
      NotionAction.create a.assignment_name dueDateStr reminderDateStr

/-- `strftime("%Y-%m-%d %H:%M:%S")`: the canonical display form of the
ISO source format. -/
def formatISO (t : PLDateTime) : String :=
  ⟨pad4 t.year ++ '-' :: (pad2 t.month ++ '-' :: (pad2 t.day ++
   ' ' :: (pad2 t.hour ++ ':' :: (pad2 t.minute ++ ':' :: pad2 t.second))))⟩

/-- Day of week by Sakamoto's method, `0 = Sunday`, for the canonical `%a`
of the human display form. -/
def dayOfWeekIdx (y m d : Nat) : Nat :=
  let t := [0, 3, 2, 5, 0, 3, 5, 1, 4, 6, 2, 4]
  let y1 := if m < 3 then y - 1 else y
  (y1 + y1 / 4 - y1 / 100 + y1 / 400 + t.getD (m - 1) 0 + d) % 7

def weekdayAbbrev (i : Nat) : List Char :=
  match i with
  | 0 => "Sun".data | 1 => "Mon".data | 2 => "Tue".data | 3 => "Wed".data
  | 4 => "Thu".data | 5 => "Fri".data | _ => "Sat".data

def monthAbbrev (m : Nat) : List Char :=
  match m with
  | 1 => "Jan".data | 2 => "Feb".data | 3 => "Mar".data | 4 => "Apr".data
  | 5 => "May".data | 6 => "Jun".data | 7 => "Jul".data | 8 => "Aug".data
  | 9 => "Sep".data | 10 => "Oct".data | 11 => "Nov".data | _ => "Dec".data

/-- `strftime("%H:%M, %a, %b %d")`: the canonical display form of the
human-readable source format (year-free, as the source displays it). -/
def formatHuman (t : PLDateTime) : String :=
  ⟨pad2 t.hour ++ ':' :: (pad2 t.minute ++ ',' :: ' ' ::
   (weekdayAbbrev (dayOfWeekIdx t.year t.month t.day) ++ ',' :: ' ' ::
    (monthAbbrev t.month ++ ' ' :: pad2 t.day)))⟩

/-- The canonical display format of the source a parsed timestamp came
from: the ISO form when the ISO attempt succeeded on the cleaned string,
else the human form. -/
def sourceFormat (s : String) (t : PLDateTime) : String :=
  if (strptimeISO (isoCandidate s)).isSome then formatISO t else formatHuman t

/-- Specification-side description of the member rows a correct grouping
must keep, scanning after the first header has been seen: every non-header
row with at least two relevant data cells, in order. -/
def keptFrom : List RawRow → List RawRow
  | [] => []
  | r :: rest =>
      if r.headerName.isSome then keptFrom rest
      else if 2 ≤ r.nameCells.length then r :: keptFrom rest
      else keptFrom rest

/-- The member-row subsequence of a table body, minus the skipped
malformed rows: member rows are the non-header rows following the first
header (rows before any header belong to no group), and a member row with
fewer than two relevant data cells is skipped. -/
def keptMembers (rows : List RawRow) : List RawRow :=
  keptFrom (rows.dropWhile (fun r => r.headerName.isNone))


theorem popoverDueList_cons_skip (cells : List String)
    (rest : List (List String)) (now : PLDateTime) (year : Nat)
    (h : cells.length < 3) :
    popoverDueList (cells :: rest) now year =
      popoverDueList rest now year := by
  simp only [popoverDueList, List.filterMap_cons, if_pos h]

theorem popoverDueList_cons_none (cells : List String)
    (rest : List (List String)) (now : PLDateTime) (year : Nat)
    (h : ¬ cells.length < 3)
    (hp : parse_date (pstrip (cells.getD 2 "")) year = none) :
    popoverDueList (cells :: rest) now year =
      popoverDueList rest now year := by
  simp only [popoverDueList, List.filterMap_cons, if_neg h, hp]

theorem popoverDueList_cons_reject (cells : List String)
    (rest : List (List String)) (now : PLDateTime) (year : Nat)
    (d : PLDateTime) (h : ¬ cells.length < 3)
    (hp : parse_date (pstrip (cells.getD 2 "")) year = some d)
    (hc : ¬ (PLDateTime.Le now d ∧ pstrip (cells.getD 0 "") = "100%")) :
    popoverDueList (cells :: rest) now year =
      popoverDueList rest now year := by
  simp only [popoverDueList, List.filterMap_cons, if_neg h, hp, if_neg hc]

theorem popoverDueList_cons_cand (cells : List String)
    (rest : List (List String)) (now : PLDateTime) (year : Nat)
    (d : PLDateTime) (h : ¬ cells.length < 3)
    (hp : parse_date (pstrip (cells.getD 2 "")) year = some d)
    (hc : PLDateTime.Le now d ∧ pstrip (cells.getD 0 "") = "100%") :
    popoverDueList (cells :: rest) now year =
      d :: popoverDueList rest now year := by
  simp only [popoverDueList, List.filterMap_cons, if_neg h, hp, if_pos hc]

theorem popoverUnlockList_cons_skip (cells : List String)
    (rest : List (List String)) (year : Nat) (h : cells.length < 3) :
    popoverUnlockList (cells :: rest) year =
      popoverUnlockList rest year := by
  simp only [popoverUnlockList, List.filterMap_cons, if_pos h]

theorem popoverUnlockList_cons_none (cells : List String)
    (rest : List (List String)) (year : Nat) (h : ¬ cells.length < 3)
    (hq : parse_date (pstrip (cells.getD 1 "")) year = none) :
    popoverUnlockList (cells :: rest) year =
      popoverUnlockList rest year := by
  simp only [popoverUnlockList, List.filterMap_cons, if_neg h, hq]

theorem popoverUnlockList_cons_some (cells : List String)
    (rest : List (List String)) (year : Nat) (u : PLDateTime)
    (h : ¬ cells.length < 3)
    (hq : parse_date (pstrip (cells.getD 1 "")) year = some u) :
    popoverUnlockList (cells :: rest) year =
      u :: popoverUnlockList rest year := by
  simp only [popoverUnlockList, List.filterMap_cons, if_neg h, hq]

theorem popoverLoop_eq (year : Nat) (now : PLDateTime) :
    ∀ (l : List (List String)) (most unl : Option PLDateTime),
      popoverLoop year now l most unl =
        ((popoverDueList l now year).foldl minStep most,
         (popoverUnlockList l year).foldl (fun _ x => some x) unl) := by
  intro l
  induction l with
  | nil => intro most unl; rfl
  | cons cells rest ih =>
      intro most unl
      by_cases hlen : cells.length < 3
      · rw [popoverDueList_cons_skip cells rest now year hlen,
            popoverUnlockList_cons_skip cells rest year hlen]
        simp only [popoverLoop, if_pos hlen]
        exact ih most unl
      · simp only [popoverLoop, if_neg hlen]
        rcases hp : parse_date (pstrip (cells.getD 2 "")) year with _ | d
        all_goals rcases hq : parse_date (pstrip (cells.getD 1 "")) year
          with _ | u
        · rw [popoverDueList_cons_none cells rest now year hlen hp,
              popoverUnlockList_cons_none cells rest year hlen hq]
          exact ih most unl
        · rw [popoverDueList_cons_none cells rest now year hlen hp,
              popoverUnlockList_cons_some cells rest year u hlen hq]
          exact ih most (some u)
        · by_cases hc : PLDateTime.Le now d ∧ pstrip (cells.getD 0 "") = "100%"
          · rw [popoverDueList_cons_cand cells rest now year d hlen hp hc,
                popoverUnlockList_cons_none cells rest year hlen hq]
            simp only [if_pos hc]
            exact ih (minStep most d) unl
          · rw [popoverDueList_cons_reject cells rest now year d hlen hp hc,
                popoverUnlockList_cons_none cells rest year hlen hq]
            simp only [if_neg hc]
            exact ih most unl
        · by_cases hc : PLDateTime.Le now d ∧ pstrip (cells.getD 0 "") = "100%"
          · rw [popoverDueList_cons_cand cells rest now year d hlen hp hc,
                popoverUnlockList_cons_some cells rest year u hlen hq]
            simp only [if_pos hc]
            exact ih (minStep most d) (some u)
          · rw [popoverDueList_cons_reject cells rest now year d hlen hp hc,
                popoverUnlockList_cons_some cells rest year u hlen hq]
            simp only [if_neg hc]
            exact ih most (some u)

theorem foldl_minStep_ne_none :
    ∀ (l : List PLDateTime) (m : PLDateTime),
      l.foldl minStep (some m) ≠ none := by
  intro l
  induction l with
  | nil => intro m h; exact Option.noConfusion h
  | cons x l ih =>
      intro m
      show (l.foldl minStep (minStep (some m) x)) ≠ none
      have : minStep (some m) x =
          some (if PLDateTime.Lt x m then x else m) := by
        simp only [minStep]
        split <;> rfl
      rw [this]
      exact ih _

theorem foldl_minStep_none_iff (l : List PLDateTime) :
    l.foldl minStep none = none ↔ l = [] := by
  cases l with
  | nil => simp
  | cons x l =>
      simp only [List.foldl_cons]
      constructor
      · intro h; exact absurd h (foldl_minStep_ne_none l x)
      · intro h; exact List.noConfusion h

theorem foldl_minStep_isMin :
    ∀ (l : List PLDateTime) (acc : Option PLDateTime) (r : PLDateTime),
      l.foldl minStep acc = some r →
      (acc = some r ∨ r ∈ l) ∧
      (∀ m, acc = some m → PLDateTime.Le r m) ∧
      (∀ x ∈ l, PLDateTime.Le r x) := by
  intro l
  induction l with
  | nil =>
      intro acc r h
      refine ⟨Or.inl h, ?_, ?_⟩
      · intro m hm
        rw [hm] at h
        cases h
        exact PLDateTime.le_refl r
      · intro x hx; cases hx
  | cons x l ih =>
      intro acc r h
      rw [List.foldl_cons] at h
      obtain ⟨h1, h2, h3⟩ := ih (minStep acc x) r h
      rcases acc with _ | m0
      · have hstep : minStep none x = some x := rfl
        have hrx : PLDateTime.Le r x := h2 x hstep
        refine ⟨?_, ?_, ?_⟩
        · rcases h1 with h1 | h1
          · rw [hstep] at h1; cases h1
            exact Or.inr (List.mem_cons_self x l)
          · exact Or.inr (List.mem_cons_of_mem x h1)
        · intro m hm; exact Option.noConfusion hm
        · intro z hz
          rcases List.mem_cons.mp hz with hz | hz
          · rw [hz]; exact hrx
          · exact h3 z hz
      · by_cases hlt : PLDateTime.Lt x m0
        · have hstep : minStep (some m0) x = some x := by
            simp [minStep, hlt]
          rw [hstep] at h1 h2
          have hrx : PLDateTime.Le r x := h2 x rfl
          have hrm0 : PLDateTime.Le r m0 :=
            PLDateTime.le_trans hrx (PLDateTime.lt_asymm hlt)
          refine ⟨?_, ?_, ?_⟩
          · rcases h1 with h1 | h1
            · cases h1; exact Or.inr (List.mem_cons_self x l)
            · exact Or.inr (List.mem_cons_of_mem x h1)
          · intro m hm; cases hm; exact hrm0
          · intro z hz
            rcases List.mem_cons.mp hz with hz | hz
            · rw [hz]; exact hrx
            · exact h3 z hz
        · have hstep : minStep (some m0) x = some m0 := by
            simp [minStep, hlt]
          rw [hstep] at h1 h2
          have hrm0 : PLDateTime.Le r m0 := h2 m0 rfl
          have hrx : PLDateTime.Le r x := PLDateTime.le_trans hrm0 hlt
          refine ⟨?_, ?_, ?_⟩
          · rcases h1 with h1 | h1
            · cases h1; exact Or.inl rfl
            · exact Or.inr (List.mem_cons_of_mem x h1)
          · intro m hm; cases hm; exact hrm0
          · intro z hz
            rcases List.mem_cons.mp hz with hz | hz
            · rw [hz]; exact hrx
            · exact h3 z hz

theorem foldl_minStep_eq_some (l : List PLDateTime) (d : PLDateTime)
    (hmem : d ∈ l) (hmin : ∀ x ∈ l, PLDateTime.Le d x) :
    l.foldl minStep none = some d := by
  rcases hr : l.foldl minStep none with _ | r
  · rcases (foldl_minStep_none_iff l).mp hr with rfl
    cases hmem
  · obtain ⟨h1, _, h3⟩ := foldl_minStep_isMin l none r hr
    have hrl : r ∈ l := by
      rcases h1 with h1 | h1
      · exact Option.noConfusion h1
      · exact h1
    have := PLDateTime.le_antisymm (h3 d hmem) (hmin r hrl)
    rw [this]

theorem foldl_lastStep_eq :
    ∀ (l : List PLDateTime) (u : Option PLDateTime),
      l.foldl (fun _ x => some x) u =
        (match l.getLast? with
         | some z => some z
         | none => u) := by
  intro l
  induction l with
  | nil => intro u; rfl
  | cons x l ih =>
      intro u
      rw [List.foldl_cons, ih (some x)]
      cases l with
      | nil => rfl
      | cons y l2 =>
          rw [List.getLast?_cons_cons]
          have hs : (y :: l2).getLast?.isSome := by
            rw [List.getLast?_isSome]
            exact List.cons_ne_nil y l2
          obtain ⟨z, hz⟩ := Option.isSome_iff_exists.mp hs
          rw [hz]

/-- Claim C1: the popover path selects as due date the minimum among the
tiers whose percentage text is `100%` and whose due date is parseable and
not earlier than `now`; it yields nothing exactly when no such tier
exists.  In particular a past 100% tier is never selected and tiers with
other percentages are ignored for due-date selection. -/
theorem popover_due_selection (rows : List (List String)) (now : PLDateTime)
    (year : Nat) :
    ((scrape_from_popover (some rows) now year).1 = none ↔
      dueCandidates rows now year = []) ∧
    (∀ d, (scrape_from_popover (some rows) now year).1 = some d ↔
      (d ∈ dueCandidates rows now year ∧
       ∀ x ∈ dueCandidates rows now year, PLDateTime.Le d x)) := by
  have hfst : (scrape_from_popover (some rows) now year).1 =
      (dueCandidates rows now year).foldl minStep none := by
    show (popoverLoop year now (rows.drop 1) none none).1 = _
    rw [popoverLoop_eq year now (rows.drop 1) none none]
    rfl
  constructor
  · rw [hfst]; exact foldl_minStep_none_iff _
  · intro d
    constructor
    · intro h
      rw [hfst] at h
      obtain ⟨h1, _, h3⟩ := foldl_minStep_isMin _ none d h
      refine ⟨?_, h3⟩
      rcases h1 with h1 | h1
      · exact Option.noConfusion h1
      · exact h1
    · intro h
      rw [hfst]
      exact foldl_minStep_eq_some _ d h.1 h.2

theorem popover_due_selection_witness :
    (scrape_from_popover
        (some [["Credit", "Start", "End"],
               ["100%", "—", "2025-04-20 10:00:00"],
               ["100%", "—", "2025-03-01 10:00:00"],
               ["50%", "—", "2025-02-01 10:00:00"]])
        ⟨2025, 2, 15, 0, 0, 0⟩ 2025).1 = some ⟨2025, 3, 1, 10, 0, 0⟩ :=
  ((popover_due_selection
      [["Credit", "Start", "End"],
       ["100%", "—", "2025-04-20 10:00:00"],
       ["100%", "—", "2025-03-01 10:00:00"],
       ["50%", "—", "2025-02-01 10:00:00"]]
      ⟨2025, 2, 15, 0, 0, 0⟩ 2025).2 ⟨2025, 3, 1, 10, 0, 0⟩).mpr
    ⟨by decide, by decide⟩

/-- Claim C7: the popover-derived unlock date is the most recently parsed
(last) valid unlock date across all tiers — the scan records every
parseable unlock cell, regardless of the tier's percentage or of whether
its due date is past or unparseable, and later tiers overwrite earlier
ones. -/
theorem popover_unlock_last (rows : List (List String)) (now : PLDateTime)
    (year : Nat) :
    (scrape_from_popover (some rows) now year).2 =
      (unlockParses rows year).getLast? := by
  show (popoverLoop year now (rows.drop 1) none none).2 = _
  rw [popoverLoop_eq year now (rows.drop 1) none none]
  show (popoverUnlockList (rows.drop 1) year).foldl (fun _ x => some x) none
      = _
  rw [foldl_lastStep_eq]
  show (match (unlockParses rows year).getLast? with
        | some z => some z
        | none => none) = (unlockParses rows year).getLast?
  rcases (unlockParses rows year).getLast? with _ | z
  · rfl
  · rfl

/-- Claim C3: when the inline summary yields a due date it is the final
due date and the popover payload is irrelevant to it; the popover is
consulted for the due date exactly when the inline path yields none. -/
theorem inline_due_precedence (cells : List String)
    (p p2 : Option (List (List String))) (now : PLDateTime) (year : Nat) :
    (∀ d, (inlineCredit cells year).1 = some d →
      (resolveRow cells p now year).1 = some d ∧
      (resolveRow cells p now year).1 = (resolveRow cells p2 now year).1) ∧
    ((inlineCredit cells year).1 = none →
      (resolveRow cells p now year).1 =
        (scrape_from_popover p now year).1) := by
  constructor
  · intro d hd
    constructor <;> simp [resolveRow, hd]
  · intro hd
    simp [resolveRow, hd]

theorem inline_due_precedence_witness :
    (resolveRow ["", "HW1", "100% until 23:59, Sat, Apr 25"]
        (some [["Credit", "Start", "End"],
               ["100%", "—", "2025-05-01 10:00:00"]])
        ⟨2025, 1, 1, 0, 0, 0⟩ 2025).1 = some ⟨2025, 4, 25, 23, 59, 0⟩ ∧
    (resolveRow ["", "HW1", "100% until 23:59, Sat, Apr 25"]
        (some [["Credit", "Start", "End"],
               ["100%", "—", "2025-05-01 10:00:00"]])
        ⟨2025, 1, 1, 0, 0, 0⟩ 2025).1 =
      (resolveRow ["", "HW1", "100% until 23:59, Sat, Apr 25"] none
        ⟨2025, 1, 1, 0, 0, 0⟩ 2025).1 :=
  (inline_due_precedence ["", "HW1", "100% until 23:59, Sat, Apr 25"]
      (some [["Credit", "Start", "End"],
             ["100%", "—", "2025-05-01 10:00:00"]])
      none ⟨2025, 1, 1, 0, 0, 0⟩ 2025).1
    ⟨2025, 4, 25, 23, 59, 0⟩ (by decide)

/-- Claim C4 counterexample: a row whose inline text yields a due date but
no unlock date, while its popover holds a parseable unlock date.  The
claim says the popover is still consulted and its unlock date becomes the
final unlock date; the code consults the popover only when the inline path
yields no due date, so the final unlock date is absent. -/
theorem popover_unlock_supplement_counterexample :
    (inlineCredit ["", "HW1", "100% until 23:59, Sat, Apr 25"] 2025).1 =
      some ⟨2025, 4, 25, 23, 59, 0⟩ ∧
    (inlineCredit ["", "HW1", "100% until 23:59, Sat, Apr 25"] 2025).2 =
      none ∧
    (scrape_from_popover
        (some [["Credit", "Start", "End"],
               ["50%", "2025-01-10 08:00:00", "—"]])
        ⟨2025, 1, 1, 0, 0, 0⟩ 2025).2 = some ⟨2025, 1, 10, 8, 0, 0⟩ ∧
    (resolveRow ["", "HW1", "100% until 23:59, Sat, Apr 25"]
        (some [["Credit", "Start", "End"],
               ["50%", "2025-01-10 08:00:00", "—"]])
        ⟨2025, 1, 1, 0, 0, 0⟩ 2025).2 = none := by
  refine ⟨by decide, by decide, by decide, by decide⟩

/-- Claim C4 (amended): the final unlock date is the inline unlock date
when the inline path produced one; the popover-derived unlock date is used
only when the inline path yielded neither a due date nor an unlock date
(the popover is consulted at all only when the inline due date is
absent); otherwise the unlock date is absent. -/
theorem resolve_unlock_priority (cells : List String)
    (p : Option (List (List String))) (now : PLDateTime) (year : Nat) :
    (resolveRow cells p now year).2 =
      (match (inlineCredit cells year).1 with
       | some _ => (inlineCredit cells year).2
       | none =>
           match (inlineCredit cells year).2 with
           | some u => some u
           | none => (scrape_from_popover p now year).2) := by
  rcases h : (inlineCredit cells year).1 with _ | d <;>
    simp [resolveRow, h]

/-- Claim C5: `_parse_date` is total — modelled into `Option`, every
branch of the source returns rather than raising — the empty string and
the em-dash placeholder yield `none`, `garbage` yields `none`, and any
string on which both format attempts fail yields `none` rather than an
error. -/
theorem parse_date_soft_miss (y : Nat) :
    parse_date "" y = none ∧ parse_date "—" y = none ∧
    parse_date "garbage" y = none ∧
    (∀ s : String, strptimeISO (isoCandidate s) = none →
      strptimeHuman (isoCandidate s ++ ' ' :: natDigits y) = none →
      parse_date s y = none) := by
  have hgen : ∀ s : String, strptimeISO (isoCandidate s) = none →
      strptimeHuman (isoCandidate s ++ ' ' :: natDigits y) = none →
      parse_date s y = none := by
    intro s h1 h2
    unfold parse_date
    split
    · rfl
    · simp only [h1, h2]
  have hlist : isoCandidate "garbage" ++ ' ' :: natDigits y =
      'g' :: 'a' :: 'r' :: 'b' :: 'a' :: 'g' :: 'e' :: ' ' ::
        natDigits y := by
    have h : isoCandidate "garbage" = ['g', 'a', 'r', 'b', 'a', 'g', 'e'] :=
      by decide
    rw [h]
    rfl
  refine ⟨rfl, rfl, ?_, hgen⟩
  exact hgen "garbage" (by decide) (by rw [hlist]; rfl)

theorem parse_date_soft_miss_witness :
    parse_date "xyz" 2025 = none :=
  (parse_date_soft_miss 2025).2.2.2 "xyz" (by decide) (by decide)

/-- Claim C8: the per-row deadline resolution is a pure function of the
row, the popover payload and the resolution time.  The two ambient clock
reads of the source (`datetime.now(TIMEZONE)`, line 139, and
`datetime.now().year`, line 90) are determined by the resolution moment,
so two invocations with the same row, popover payload and resolution time
produce identical `(due, unlock)` outputs. -/
theorem resolver_purity (cells : List String)
    (p : Option (List (List String))) (now1 now2 : PLDateTime)
    (y1 y2 : Nat) (hnow : now1 = now2) (hy1 : y1 = now1.year)
    (hy2 : y2 = now2.year) :
    resolveRow cells p now1 y1 = resolveRow cells p now2 y2 := by
  subst hnow
  subst hy1
  subst hy2
  rfl

theorem resolver_purity_witness :
    resolveRow ["", "HW1", "—"] none ⟨2025, 1, 1, 0, 0, 0⟩ 2025 =
      resolveRow ["", "HW1", "—"] none ⟨2025, 1, 1, 0, 0, 0⟩ 2025 :=
  resolver_purity ["", "HW1", "—"] none ⟨2025, 1, 1, 0, 0, 0⟩
    ⟨2025, 1, 1, 0, 0, 0⟩ 2025 2025 rfl rfl rfl

/-- Claim C10: both the due and reminder timestamps are truncated to their
calendar date before storage and before change comparison, so an existing
assignment whose stored due string equals the date-only string of the new
due timestamp triggers no update even when the time of day changed. -/
theorem notion_sync_day_truncation :
    (∀ (a : AssignmentData)
        (existing : List (String × String × Option String))
        (pid : String) (sd : Option String),
      lookupExisting existing a.assignment_name = some (pid, sd) →
      sd = a.due.map dateStr →
      update_or_create_assignment a existing = NotionAction.skip) ∧
    (∀ (t : PLDateTime) (h mi s : Nat),
      dateStr { t with hour := h, minute := mi, second := s } = dateStr t) ∧
    (∀ (a : AssignmentData)
        (existing : List (String × String × Option String)),
      lookupExisting existing a.assignment_name = none →
      update_or_create_assignment a existing =
        NotionAction.create a.assignment_name (a.due.map dateStr)
          (a.reminder.map dateStr)) := by
  refine ⟨?_, ?_, ?_⟩
  · intro a existing pid sd hl hsd
    subst hsd
    simp [update_or_create_assignment, hl]
  · intro t h mi s
    rfl
  · intro a existing hl
    simp [update_or_create_assignment, hl]

theorem notion_sync_day_truncation_witness :
    update_or_create_assignment
      ⟨"CPSC 221", "Project 1 - HW1", "Project 1",
        some ⟨2025, 4, 25, 23, 59, 0⟩, none⟩
      [("Project 1 - HW1", "page1", some "2025-04-25")] =
      NotionAction.skip :=
  notion_sync_day_truncation.1
    ⟨"CPSC 221", "Project 1 - HW1", "Project 1",
      some ⟨2025, 4, 25, 23, 59, 0⟩, none⟩
    [("Project 1 - HW1", "page1", some "2025-04-25")]
    "page1" (some "2025-04-25") (by decide) (by decide)

theorem groupMembers_flatMap :
    ∀ l : List RawRow,
      groupMembers l ++ (groupRows l).flatMap Prod.snd = keptFrom l := by
  intro l
  induction l with
  | nil => rfl
  | cons r rest ih =>
      rcases hr : r.headerName with _ | h
      · simp only [groupMembers, groupRows, keptFrom, hr, Option.isSome_none,
          Bool.false_eq_true, if_false]
        by_cases hlen : 2 ≤ r.nameCells.length
        · simp only [if_pos hlen, List.cons_append, ih]
        · simp only [if_neg hlen, ih]
      · simp only [groupMembers, groupRows, keptFrom, hr, Option.isSome_some,
          if_true, List.nil_append, List.flatMap_cons]
        exact ih

theorem grouping_counts :
    ∀ rows : List RawRow,
      (groupRows rows).length =
        (rows.filter (fun r => r.headerName.isSome)).length ∧
      (groupRows rows).map Prod.fst =
        (rows.filter (fun r => r.headerName.isSome)).map
          (fun r => pstrip (r.headerName.getD "")) := by
  intro rows
  induction rows with
  | nil => exact ⟨rfl, rfl⟩
  | cons r rest ih =>
      rcases hr : r.headerName with _ | h
      · simpa only [groupRows, List.filter_cons, hr, Option.isSome_none,
          Bool.false_eq_true, if_false] using ih
      · simp [groupRows, List.filter_cons, hr, ih.1, ih.2]

/-- Claim C6: grouping yields exactly one group per header-marker row, in
input order (with the headers' names), and the concatenation of all
groups' member rows is the member-row subsequence of the body minus the
skipped rows — those with fewer than two relevant data cells, whose
skipping does not abort the scan. -/
theorem grouping_partition (rows : List RawRow) :
    (groupRows rows).length =
      (rows.filter (fun r => r.headerName.isSome)).length ∧
    (groupRows rows).map Prod.fst =
      (rows.filter (fun r => r.headerName.isSome)).map
        (fun r => pstrip (r.headerName.getD "")) ∧
    (groupRows rows).flatMap Prod.snd = keptMembers rows := by
  refine ⟨(grouping_counts rows).1, (grouping_counts rows).2, ?_⟩
  induction rows with
  | nil => rfl
  | cons r rest ih =>
      rcases hr : r.headerName with _ | h
      · have hdrop : (r :: rest).dropWhile (fun x => x.headerName.isNone) =
            rest.dropWhile (fun x => x.headerName.isNone) := by
          simp [List.dropWhile_cons, hr]
        simp only [groupRows, hr, keptMembers, hdrop]
        exact ih
      · have hdrop : (r :: rest).dropWhile (fun x => x.headerName.isNone) =
            r :: rest := by
          simp [List.dropWhile_cons, hr]
        simp only [groupRows, hr, keptMembers, hdrop, List.flatMap_cons]
        have : keptFrom (r :: rest) = keptFrom rest := by
          simp only [keptFrom, hr, Option.isSome_some, if_true]
        rw [this]
        exact groupMembers_flatMap rest

theorem groupMembers_mem :
    ∀ (l : List RawRow) (r : RawRow), r ∈ groupMembers l →
      r ∈ l ∧ r.headerName = none := by
  intro l
  induction l with
  | nil => intro r h; cases h
  | cons r0 rest ih =>
      intro r h
      rcases hr : r0.headerName with _ | hd
      · rw [groupMembers, hr] at h
        simp only [Option.isSome_none, Bool.false_eq_true, if_false] at h
        by_cases hlen : 2 ≤ r0.nameCells.length
        · rw [if_pos hlen] at h
          rcases List.mem_cons.mp h with h | h
          · exact ⟨by rw [h]; exact List.mem_cons_self r0 rest,
                   by rw [h]; exact hr⟩
          · obtain ⟨h1, h2⟩ := ih r h
            exact ⟨List.mem_cons_of_mem r0 h1, h2⟩
        · rw [if_neg hlen] at h
          obtain ⟨h1, h2⟩ := ih r h
          exact ⟨List.mem_cons_of_mem r0 h1, h2⟩
      · rw [groupMembers, hr] at h
        simp only [Option.isSome_some, if_true] at h
        cases h

theorem groupRows_snd_mem :
    ∀ (l : List RawRow) (g : String × List RawRow), g ∈ groupRows l →
      ∀ r ∈ g.2, r ∈ l ∧ r.headerName = none := by
  intro l
  induction l with
  | nil => intro g h; cases h
  | cons r0 rest ih =>
      intro g hg r hr
      rcases hh : r0.headerName with _ | hd
      · rw [groupRows, hh] at hg
        obtain ⟨h1, h2⟩ := ih g hg r hr
        exact ⟨List.mem_cons_of_mem r0 h1, h2⟩
      · rw [groupRows, hh] at hg
        rcases List.mem_cons.mp hg with hg | hg
        · subst hg
          obtain ⟨h1, h2⟩ := groupMembers_mem rest r hr
          exact ⟨List.mem_cons_of_mem r0 h1, h2⟩
        · obtain ⟨h1, h2⟩ := ih g hg r hr
          exact ⟨List.mem_cons_of_mem r0 h1, h2⟩

/-- Claim C2 counterexample: a scraped record whose `due` is present but
is a past date attached to a 50% tier.  The member row's inline text is
`50% until 23:59, Sat, Apr 25`, resolution time is June 1 of the same
year, and the produced record carries that past April due date — so a
record's `due` is not always the earliest still-future 100%-credit
deadline. -/
theorem record_due_invariant_counterexample :
    scrape_course "C"
      [⟨some "P1", [], none⟩,
       ⟨none, ["", "HW", "50% until 23:59, Sat, Apr 25"], none⟩]
      ⟨2025, 6, 1, 0, 0, 0⟩ 2025 =
      [{ course_name := "C", assignment_name := "P1 - HW", project := "P1",
         due := some ⟨2025, 4, 25, 23, 59, 0⟩, reminder := none }] ∧
    PLDateTime.Lt ⟨2025, 4, 25, 23, 59, 0⟩ ⟨2025, 6, 1, 0, 0, 0⟩ := by
  refine ⟨by decide, by decide⟩

/-- Claim C2 (amended): every record produced by a scrape takes its `due`
from the per-row resolution of some member row; that resolution yields
either the row's inline `<percent>% until` date — taken at face value,
whatever the percentage and even if already past — or, when the inline
path yields no due date, the earliest still-future 100%-credit popover
deadline at resolution time. -/
theorem record_due_provenance :
    (∀ (cn : String) (rows : List RawRow) (now : PLDateTime) (y : Nat)
        (a : AssignmentData), a ∈ scrape_course cn rows now y →
      ∃ row, row ∈ rows ∧ row.headerName = none ∧
        a.due = (resolveRow row.nameCells row.popover now y).1) ∧
    (∀ (cells : List String) (p : Option (List (List String)))
        (now : PLDateTime) (y : Nat) (d : PLDateTime),
      (resolveRow cells p now y).1 = some d →
      (inlineCredit cells y).1 = some d ∨
      ((inlineCredit cells y).1 = none ∧
       d ∈ dueCandidatesOpt p now y ∧
       ∀ x ∈ dueCandidatesOpt p now y, PLDateTime.Le d x)) := by
  constructor
  · intro cn rows now y a ha
    rw [scrape_course] at ha
    obtain ⟨g, hg, ha⟩ := List.mem_flatMap.mp ha
    obtain ⟨row, hrow, hba⟩ := List.mem_map.mp ha
    obtain ⟨h1, h2⟩ := groupRows_snd_mem rows g hg row hrow
    refine ⟨row, h1, h2, ?_⟩
    rw [← hba]
    rfl
  · intro cells p now y d h
    rcases hi : (inlineCredit cells y).1 with _ | d0
    · right
      refine ⟨rfl, ?_⟩
      simp only [resolveRow, hi] at h
      rcases p with _ | rows
      · exact absurd h (by simp [scrape_from_popover])
      · have hfst : (scrape_from_popover (some rows) now y).1 =
            (dueCandidates rows now y).foldl minStep none := by
          show (popoverLoop y now (rows.drop 1) none none).1 = _
          rw [popoverLoop_eq y now (rows.drop 1) none none]
          rfl
        rw [hfst] at h
        obtain ⟨h1, _, h3⟩ := foldl_minStep_isMin _ none d h
        refine ⟨?_, h3⟩
        rcases h1 with h1 | h1
        · exact Option.noConfusion h1
        · exact h1
    · left
      simp only [resolveRow, hi] at h
      exact h

theorem record_due_provenance_witness :
    (inlineCredit ["", "HW", "—"] 2025).1 =
        some ⟨2025, 4, 20, 10, 0, 0⟩ ∨
    ((inlineCredit ["", "HW", "—"] 2025).1 = none ∧
     ⟨2025, 4, 20, 10, 0, 0⟩ ∈
       dueCandidatesOpt
         (some [["Credit", "Start", "End"],
                ["100%", "—", "2025-04-20 10:00:00"]])
         ⟨2025, 1, 1, 0, 0, 0⟩ 2025 ∧
     ∀ x ∈ dueCandidatesOpt
         (some [["Credit", "Start", "End"],
                ["100%", "—", "2025-04-20 10:00:00"]])
         ⟨2025, 1, 1, 0, 0, 0⟩ 2025,
       PLDateTime.Le ⟨2025, 4, 20, 10, 0, 0⟩ x) :=
  record_due_provenance.2 ["", "HW", "—"]
    (some [["Credit", "Start", "End"],
           ["100%", "—", "2025-04-20 10:00:00"]])
    ⟨2025, 1, 1, 0, 0, 0⟩ 2025 ⟨2025, 4, 20, 10, 0, 0⟩ (by decide)

theorem char_eq_of_toNat {a b : Char} (h : a.toNat = b.toNat) : a = b :=
  Char.eq_of_val_eq (UInt32.toNat.inj h)

theorem isDigitChar_toNat {c : Char} (h : isDigitChar c = true) :
    48 ≤ c.toNat ∧ c.toNat ≤ 57 := by
  simp only [isDigitChar, Bool.and_eq_true, decide_eq_true_eq] at h
  obtain ⟨h1, h2⟩ := h
  exact ⟨Char.le_def.mp h1, Char.le_def.mp h2⟩

theorem digitVal_le_nine {c : Char} (h : isDigitChar c = true) :
    digitVal c ≤ 9 := by
  obtain ⟨h1, h2⟩ := isDigitChar_toNat h
  have h0 : ('0' : Char).toNat = 48 := rfl
  simp only [digitVal, h0]
  omega

theorem digitVal_pos {c : Char} (h : isDigitChar c = true) (h0 : c ≠ '0') :
    1 ≤ digitVal c := by
  obtain ⟨h1, h2⟩ := isDigitChar_toNat h
  have hne : c.toNat ≠ 48 := by
    intro he
    exact h0 (char_eq_of_toNat he)
  have h48 : ('0' : Char).toNat = 48 := rfl
  simp only [digitVal, h48]
  omega

theorem isDigitChar_digitChar10 (d : Nat) :
    isDigitChar (digitChar10 d) = true := by
  unfold digitChar10
  split <;> rfl

theorem digitVal_digitChar10 {d : Nat} (h : d ≤ 9) :
    digitVal (digitChar10 d) = d := by
  interval_cases d <;> rfl

theorem digit_not_space {c : Char} (h : isDigitChar c = true) :
    isSpaceChar c = false := by
  rcases hb : isSpaceChar c with _ | _
  · rfl
  · simp only [isSpaceChar, Bool.or_eq_true, decide_eq_true_eq] at hb
    rcases hb with ((((rfl | rfl) | rfl) | rfl) | rfl) | rfl <;>
      revert h <;> decide

theorem digit_ne_P {c : Char} (h : isDigitChar c = true) : c ≠ 'P' := by
  intro he
  subst he
  revert h
  decide

theorem natDigitsAux_succ (fuel n : Nat) :
    natDigitsAux (fuel + 1) n =
      if n < 10 then [digitChar10 n]
      else natDigitsAux fuel (n / 10) ++ [digitChar10 (n % 10)] := rfl

theorem natDigitsAux_congr :
    ∀ n f1 f2 : Nat, n < f1 → n < f2 →
      natDigitsAux f1 n = natDigitsAux f2 n := by
  intro n
  induction n using Nat.strong_induction_on with
  | _ n ih =>
      intro f1 f2 h1 h2
      rcases f1 with _ | f1
      · omega
      rcases f2 with _ | f2
      · omega
      rw [natDigitsAux_succ, natDigitsAux_succ]
      by_cases h10 : n < 10
      · rw [if_pos h10, if_pos h10]
      · rw [if_neg h10, if_neg h10]
        have hdiv : n / 10 < n := Nat.div_lt_self (by omega) (by omega)
        rw [ih (n / 10) hdiv f1 f2 (by omega) (by omega)]

theorem natDigits_base {n : Nat} (h : n < 10) :
    natDigits n = [digitChar10 n] := by
  rw [natDigits, natDigitsAux_succ, if_pos h]

theorem natDigits_step {n : Nat} (h : ¬ n < 10) :
    natDigits n = natDigits (n / 10) ++ [digitChar10 (n % 10)] := by
  rw [natDigits, natDigitsAux_succ, if_neg h, natDigits]
  have hdiv : n / 10 < n := Nat.div_lt_self (by omega) (by omega)
  rw [natDigitsAux_congr (n / 10) n (n / 10 + 1) hdiv (by omega)]

theorem natDigits_eq_pad4 {y : Nat} (h1 : 1000 ≤ y) (h2 : y ≤ 9999) :
    natDigits y = pad4 y := by
  have e1 : y / 10 / 10 = y / 100 := by omega
  have e2 : y / 100 / 10 = y / 1000 := by omega
  rw [natDigits_step (by omega), natDigits_step (by omega), e1,
      natDigits_step (by omega), e2, natDigits_base (by omega : y / 1000 < 10)]
  have e3 : y / 1000 % 10 = y / 1000 := by omega
  simp [pad4, e3]

theorem natDigits_len_le_three {y : Nat} (h : y ≤ 999) :
    (natDigits y).length ≤ 3 := by
  by_cases h1 : y < 10
  · rw [natDigits_base h1]; simp
  · by_cases h2 : y < 100
    · rw [natDigits_step h1, natDigits_base (by omega : y / 10 < 10)]
      simp
    · rw [natDigits_step (by omega), natDigits_step (by omega),
          natDigits_base (by omega : y / 10 / 10 < 10)]
      simp

theorem natDigits_len_ge_four :
    ∀ y : Nat, 1000 ≤ y → 4 ≤ (natDigits y).length := by
  intro y
  induction y using Nat.strong_induction_on with
  | _ y ih =>
      intro h
      by_cases h2 : y ≤ 9999
      · rw [natDigits_eq_pad4 h h2]; simp [pad4]
      · rw [natDigits_step (by omega)]
        have hdiv : y / 10 < y := Nat.div_lt_self (by omega) (by omega)
        have := ih (y / 10) hdiv (by omega)
        simp only [List.length_append, List.length_cons, List.length_nil]
        omega

theorem natDigits_len_ge_five {y : Nat} (h : 10000 ≤ y) :
    5 ≤ (natDigits y).length := by
  rw [natDigits_step (by omega)]
  have := natDigits_len_ge_four (y / 10) (by omega)
  simp only [List.length_append, List.length_cons, List.length_nil]
  omega

theorem natDigits_all_digits :
    ∀ y : Nat, ∀ c ∈ natDigits y, isDigitChar c = true := by
  intro y
  induction y using Nat.strong_induction_on with
  | _ y ih =>
      intro c hc
      by_cases h10 : y < 10
      · rw [natDigits_base h10] at hc
        rcases List.mem_singleton.mp hc with rfl
        exact isDigitChar_digitChar10 y
      · rw [natDigits_step h10] at hc
        rcases List.mem_append.mp hc with hc | hc
        · have hdiv : y / 10 < y := Nat.div_lt_self (by omega) (by omega)
          exact ih (y / 10) hdiv c hc
        · rcases List.mem_singleton.mp hc with rfl
          exact isDigitChar_digitChar10 _

theorem parseField_pad2 {lo hi n : Nat} (z : Bool) (rest : List Char)
    (hlo : lo ≤ n) (hhi : n ≤ hi) (hn : n ≤ 99) :
    parseField lo hi z (pad2 n ++ rest) = some (n, rest) := by
  have hd1 := isDigitChar_digitChar10 (n / 10 % 10)
  have hd2 := isDigitChar_digitChar10 (n % 10)
  have hv1 : digitVal (digitChar10 (n / 10 % 10)) = n / 10 % 10 :=
    digitVal_digitChar10 (by omega)
  have hv2 : digitVal (digitChar10 (n % 10)) = n % 10 :=
    digitVal_digitChar10 (by omega)
  have hv : 10 * digitVal (digitChar10 (n / 10 % 10)) +
      digitVal (digitChar10 (n % 10)) = n := by
    rw [hv1, hv2]; omega
  simp only [pad2, List.cons_append, List.nil_append, parseField, hv]
  rw [if_pos ⟨hd1, hd2, hlo, hhi⟩]

theorem parseYear4_pad4 {n : Nat} (rest : List Char) (hn : n ≤ 9999) :
    parseYear4 (pad4 n ++ rest) = some (n, rest) := by
  have hd1 := isDigitChar_digitChar10 (n / 1000 % 10)
  have hd2 := isDigitChar_digitChar10 (n / 100 % 10)
  have hd3 := isDigitChar_digitChar10 (n / 10 % 10)
  have hd4 := isDigitChar_digitChar10 (n % 10)
  have hv1 : digitVal (digitChar10 (n / 1000 % 10)) = n / 1000 % 10 :=
    digitVal_digitChar10 (by omega)
  have hv2 : digitVal (digitChar10 (n / 100 % 10)) = n / 100 % 10 :=
    digitVal_digitChar10 (by omega)
  have hv3 : digitVal (digitChar10 (n / 10 % 10)) = n / 10 % 10 :=
    digitVal_digitChar10 (by omega)
  have hv4 : digitVal (digitChar10 (n % 10)) = n % 10 :=
    digitVal_digitChar10 (by omega)
  simp only [pad4, List.cons_append, List.nil_append, parseYear4,
    hv1, hv2, hv3, hv4]
  rw [if_pos ⟨hd1, hd2, hd3, hd4⟩]
  congr 1
  congr 1
  omega

theorem expectChar_cons (c : Char) (rest : List Char) :
    expectChar c (c :: rest) = some rest := by
  simp [expectChar]

theorem dropWhile_of_head_false {p : Char → Bool} :
    ∀ cs : List Char, (∀ c, cs.head? = some c → p c = false) →
      cs.dropWhile p = cs := by
  intro cs h
  cases cs with
  | nil => rfl
  | cons a l =>
      rw [List.dropWhile_cons, h a rfl]
      simp

theorem expectWs_cons {rest : List Char}
    (h : ∀ c, rest.head? = some c → isSpaceChar c = false) :
    expectWs (' ' :: rest) = some rest := by
  simp only [expectWs, if_pos (by rfl : isSpaceChar ' ' = true)]
  rw [dropWhile_of_head_false rest h]

theorem parseAbbrev_month {m : Nat} (h1 : 1 ≤ m) (h2 : m ≤ 12)
    (rest : List Char) :
    parseAbbrev monthNames (monthAbbrev m ++ rest) = some (m - 1, rest) := by
  interval_cases m <;> rfl

theorem parseAbbrev_weekday (k : Nat) (rest : List Char) :
    ∃ i, parseAbbrev weekdayNames (weekdayAbbrev k ++ rest) =
      some (i, rest) := by
  rcases k with _ | _ | _ | _ | _ | _ | k
  · exact ⟨6, rfl⟩
  · exact ⟨0, rfl⟩
  · exact ⟨1, rfl⟩
  · exact ⟨2, rfl⟩
  · exact ⟨3, rfl⟩
  · exact ⟨4, rfl⟩
  · exact ⟨5, rfl⟩

theorem daysInMonth_le_31 (y m : Nat) : daysInMonth y m ≤ 31 := by
  unfold daysInMonth
  split
  · split <;> omega
  · split <;> omega

theorem parseField_pad2_nil {lo hi n : Nat} (z : Bool)
    (hlo : lo ≤ n) (hhi : n ≤ hi) (hn : n ≤ 99) :
    parseField lo hi z (pad2 n) = some (n, []) := by
  have := @parseField_pad2 lo hi n z [] hlo hhi hn
  rwa [List.append_nil] at this

theorem pad2_head (n : Nat) (tail : List Char) :
    ∀ c, (pad2 n ++ tail).head? = some c → isSpaceChar c = false := by
  intro c hc
  simp only [pad2, List.cons_append, List.head?_cons, Option.some.injEq]
    at hc
  rw [← hc]
  exact digit_not_space (isDigitChar_digitChar10 _)

theorem strptimeISO_format (t : PLDateTime)
    (hy1 : 1 ≤ t.year) (hy2 : t.year ≤ 9999)
    (hm1 : 1 ≤ t.month) (hm2 : t.month ≤ 12)
    (hd1 : 1 ≤ t.day) (hd2 : t.day ≤ daysInMonth t.year t.month)
    (hh : t.hour ≤ 23) (hmi : t.minute ≤ 59) (hs : t.second ≤ 59) :
    strptimeISO ((formatISO t).data) = some t := by
  have hday31 : t.day ≤ 31 := le_trans hd2 (daysInMonth_le_31 _ _)
  have s1 : parseYear4 ((formatISO t).data) =
      some (t.year, '-' :: (pad2 t.month ++ '-' :: (pad2 t.day ++ ' ' ::
        (pad2 t.hour ++ ':' :: (pad2 t.minute ++ ':' ::
          pad2 t.second))))) :=
    parseYear4_pad4 _ hy2
  have s2 := expectChar_cons '-' (pad2 t.month ++ '-' :: (pad2 t.day ++
    ' ' :: (pad2 t.hour ++ ':' :: (pad2 t.minute ++ ':' ::
      pad2 t.second))))
  have s3 : parseField 1 12 false (pad2 t.month ++ '-' :: (pad2 t.day ++
      ' ' :: (pad2 t.hour ++ ':' :: (pad2 t.minute ++ ':' ::
        pad2 t.second)))) =
      some (t.month, '-' :: (pad2 t.day ++ ' ' :: (pad2 t.hour ++ ':' ::
        (pad2 t.minute ++ ':' :: pad2 t.second)))) :=
    parseField_pad2 false _ hm1 hm2 (by omega)
  have s4 := expectChar_cons '-' (pad2 t.day ++ ' ' :: (pad2 t.hour ++
    ':' :: (pad2 t.minute ++ ':' :: pad2 t.second)))
  have s5 : parseField 1 31 false (pad2 t.day ++ ' ' :: (pad2 t.hour ++
      ':' :: (pad2 t.minute ++ ':' :: pad2 t.second))) =
      some (t.day, ' ' :: (pad2 t.hour ++ ':' :: (pad2 t.minute ++ ':' ::
        pad2 t.second))) :=
    parseField_pad2 false _ hd1 hday31 (by omega)
  have s6 : expectWs (' ' :: (pad2 t.hour ++ ':' :: (pad2 t.minute ++
      ':' :: pad2 t.second))) =
      some (pad2 t.hour ++ ':' :: (pad2 t.minute ++ ':' ::
        pad2 t.second)) :=
    expectWs_cons (pad2_head _ _)
  have s7 : parseField 0 23 true (pad2 t.hour ++ ':' :: (pad2 t.minute ++
      ':' :: pad2 t.second)) =
      some (t.hour, ':' :: (pad2 t.minute ++ ':' :: pad2 t.second)) :=
    parseField_pad2 true _ (Nat.zero_le _) hh (by omega)
  have s8 := expectChar_cons ':' (pad2 t.minute ++ ':' :: pad2 t.second)
  have s9 : parseField 0 59 true (pad2 t.minute ++ ':' ::
      pad2 t.second) = some (t.minute, ':' :: pad2 t.second) :=
    parseField_pad2 true _ (Nat.zero_le _) hmi (by omega)
  have s10 := expectChar_cons ':' (pad2 t.second)
  have s11 : parseField 0 61 true (pad2 t.second) =
      some (t.second, []) :=
    parseField_pad2_nil true (Nat.zero_le _) (by omega) (by omega)
  simp only [strptimeISO, s1, s2, s3, s4, s5, s6, s7, s8, s9, s10, s11]
  split
  · rfl
  · rename_i hcond
    exact absurd ⟨by trivial, hy1, hd2, hs⟩ hcond

theorem weekdayAbbrev_head (k : Nat) (tail : List Char) :
    ∀ c, (weekdayAbbrev k ++ tail).head? = some c →
      isSpaceChar c = false := by
  rcases k with _ | _ | _ | _ | _ | _ | k <;>
    · intro c hc
      simp only [weekdayAbbrev, List.cons_append, List.head?_cons,
        Option.some.injEq] at hc
      rw [← hc]
      rfl

theorem monthAbbrev_head (m : Nat) (tail : List Char) :
    ∀ c, (monthAbbrev m ++ tail).head? = some c →
      isSpaceChar c = false := by
  rcases m with _ | _ | _ | _ | _ | _ | _ | _ | _ | _ | _ | _ | m <;>
    · intro c hc
      simp only [monthAbbrev, List.cons_append, List.head?_cons,
        Option.some.injEq] at hc
      rw [← hc]
      rfl

theorem parseYear4_natDigits {y : Nat} (h3 : 1000 ≤ y) (h4 : y ≤ 9999) :
    parseYear4 (natDigits y) = some (y, []) := by
  rw [natDigits_eq_pad4 h3 h4]
  have := @parseYear4_pad4 y [] h4
  rwa [List.append_nil] at this

theorem natDigits_head {y : Nat} (h3 : 1000 ≤ y) (h4 : y ≤ 9999) :
    ∀ c, (natDigits y).head? = some c → isSpaceChar c = false := by
  intro c hc
  rw [natDigits_eq_pad4 h3 h4] at hc
  simp only [pad4, List.head?_cons, Option.some.injEq] at hc
  rw [← hc]
  exact digit_not_space (isDigitChar_digitChar10 _)

theorem strptimeHuman_format (t : PLDateTime) (y : Nat)
    (hty : t.year = y) (hy3 : 1000 ≤ y) (hy4 : y ≤ 9999)
    (hm1 : 1 ≤ t.month) (hm2 : t.month ≤ 12)
    (hd1 : 1 ≤ t.day) (hd2 : t.day ≤ daysInMonth t.year t.month)
    (hh : t.hour ≤ 23) (hmi : t.minute ≤ 59) (hsec : t.second = 0) :
    strptimeHuman ((formatHuman t).data ++ ' ' :: natDigits y) =
      some t := by
  have hday31 : t.day ≤ 31 := le_trans hd2 (daysInMonth_le_31 _ _)
  have hfull : (formatHuman t).data ++ ' ' :: natDigits y =
      pad2 t.hour ++ ':' :: (pad2 t.minute ++ ',' :: ' ' ::
        (weekdayAbbrev (dayOfWeekIdx t.year t.month t.day) ++ ',' :: ' ' ::
          (monthAbbrev t.month ++ ' ' ::
            (pad2 t.day ++ ' ' :: natDigits y)))) := by
    show (pad2 t.hour ++ ':' :: (pad2 t.minute ++ ',' :: ' ' ::
        (weekdayAbbrev (dayOfWeekIdx t.year t.month t.day) ++ ',' :: ' ' ::
          (monthAbbrev t.month ++ ' ' :: pad2 t.day)))) ++
        ' ' :: natDigits y = _
    simp [List.append_assoc]
  rw [hfull]
  have s1 : parseField 0 23 true (pad2 t.hour ++ ':' :: (pad2 t.minute ++
      ',' :: ' ' :: (weekdayAbbrev (dayOfWeekIdx t.year t.month t.day) ++
        ',' :: ' ' :: (monthAbbrev t.month ++ ' ' ::
          (pad2 t.day ++ ' ' :: natDigits y))))) =
      some (t.hour, ':' :: (pad2 t.minute ++ ',' :: ' ' ::
        (weekdayAbbrev (dayOfWeekIdx t.year t.month t.day) ++ ',' :: ' ' ::
          (monthAbbrev t.month ++ ' ' ::
            (pad2 t.day ++ ' ' :: natDigits y))))) :=
    parseField_pad2 true _ (Nat.zero_le _) hh (by omega)
  have s2 := expectChar_cons ':' (pad2 t.minute ++ ',' :: ' ' ::
    (weekdayAbbrev (dayOfWeekIdx t.year t.month t.day) ++ ',' :: ' ' ::
      (monthAbbrev t.month ++ ' ' :: (pad2 t.day ++ ' ' :: natDigits y))))
  have s3 : parseField 0 59 true (pad2 t.minute ++ ',' :: ' ' ::
      (weekdayAbbrev (dayOfWeekIdx t.year t.month t.day) ++ ',' :: ' ' ::
        (monthAbbrev t.month ++ ' ' ::
          (pad2 t.day ++ ' ' :: natDigits y)))) =
      some (t.minute, ',' :: ' ' ::
        (weekdayAbbrev (dayOfWeekIdx t.year t.month t.day) ++ ',' :: ' ' ::
          (monthAbbrev t.month ++ ' ' ::
            (pad2 t.day ++ ' ' :: natDigits y)))) :=
    parseField_pad2 true _ (Nat.zero_le _) hmi (by omega)
  have s4 := expectChar_cons ',' (' ' ::
    (weekdayAbbrev (dayOfWeekIdx t.year t.month t.day) ++ ',' :: ' ' ::
      (monthAbbrev t.month ++ ' ' :: (pad2 t.day ++ ' ' :: natDigits y))))
  have s5 : expectWs (' ' ::
      (weekdayAbbrev (dayOfWeekIdx t.year t.month t.day) ++ ',' :: ' ' ::
        (monthAbbrev t.month ++ ' ' ::
          (pad2 t.day ++ ' ' :: natDigits y)))) =
      some (weekdayAbbrev (dayOfWeekIdx t.year t.month t.day) ++ ',' ::
        ' ' :: (monthAbbrev t.month ++ ' ' ::
          (pad2 t.day ++ ' ' :: natDigits y))) :=
    expectWs_cons (weekdayAbbrev_head _ _)
  obtain ⟨i, s6⟩ := parseAbbrev_weekday
    (dayOfWeekIdx t.year t.month t.day)
    (',' :: ' ' :: (monthAbbrev t.month ++ ' ' ::
      (pad2 t.day ++ ' ' :: natDigits y)))
  have s7 := expectChar_cons ',' (' ' :: (monthAbbrev t.month ++ ' ' ::
    (pad2 t.day ++ ' ' :: natDigits y)))
  have s8 : expectWs (' ' :: (monthAbbrev t.month ++ ' ' ::
      (pad2 t.day ++ ' ' :: natDigits y))) =
      some (monthAbbrev t.month ++ ' ' ::
        (pad2 t.day ++ ' ' :: natDigits y)) :=
    expectWs_cons (monthAbbrev_head _ _)
  have s9 : parseAbbrev monthNames (monthAbbrev t.month ++ ' ' ::
      (pad2 t.day ++ ' ' :: natDigits y)) =
      some (t.month - 1, ' ' :: (pad2 t.day ++ ' ' :: natDigits y)) :=
    parseAbbrev_month hm1 hm2 _
  have s10 : expectWs (' ' :: (pad2 t.day ++ ' ' :: natDigits y)) =
      some (pad2 t.day ++ ' ' :: natDigits y) :=
    expectWs_cons (pad2_head _ _)
  have s11 : parseField 1 31 false (pad2 t.day ++ ' ' :: natDigits y) =
      some (t.day, ' ' :: natDigits y) :=
    parseField_pad2 false _ hd1 hday31 (by omega)
  have s12 : expectWs (' ' :: natDigits y) = some (natDigits y) :=
    expectWs_cons (natDigits_head hy3 hy4)
  have s13 : parseYear4 (natDigits y) = some (y, []) :=
    parseYear4_natDigits hy3 hy4
  simp only [strptimeHuman, s1, s2, s3, s4, s5, s6, s7, s8, s9, s10, s11,
    s12, s13]
  have hmm : t.month - 1 + 1 = t.month := by omega
  split
  · rw [hmm, ← hty, ← hsec]
  · rename_i hcond
    refine absurd ⟨by trivial, by omega, ?_⟩ hcond
    rw [hmm, ← hty]
    exact hd2

theorem tryTZMatch_none (cs : List Char) (h : ∀ c ∈ cs, c ≠ 'P') :
    tryTZMatch cs = none := by
  have hd : ∀ x ∈ cs.dropWhile isSpaceChar, x ∈ cs :=
    fun x hx => (List.dropWhile_sublist _).subset hx
  have hd2 : ∀ x ∈ (match cs.dropWhile isSpaceChar with
      | '(' :: rest => rest
      | _ => cs.dropWhile isSpaceChar), x ∈ cs := by
    intro x hx
    split at hx
    · rename_i heq
      exact hd x (by rw [heq]; exact List.mem_cons_of_mem _ hx)
    · exact hd x hx
  simp only [tryTZMatch]
  split
  · rename_i rest heq
    exact ((h 'P' (hd2 'P' (by rw [heq]; exact List.mem_cons_self _ _)))
      rfl).elim
  · rename_i rest heq
    exact ((h 'P' (hd2 'P' (by rw [heq]; exact List.mem_cons_self _ _)))
      rfl).elim
  · rfl

theorem subTZAux_id :
    ∀ (fuel : Nat) (cs : List Char), (∀ c ∈ cs, c ≠ 'P') →
      subTZAux fuel cs = cs := by
  intro fuel
  induction fuel with
  | zero => intro cs _; rfl
  | succ fuel ih =>
      intro cs h
      cases cs with
      | nil => rfl
      | cons c rest =>
          show (match tryTZMatch (c :: rest) with
                | some rest2 => subTZAux fuel rest2
                | none => c :: subTZAux fuel rest) = c :: rest
          rw [tryTZMatch_none _ h,
              ih rest (fun x hx => h x (List.mem_cons_of_mem _ hx))]

theorem subTZ_id (cs : List Char) (h : ∀ c ∈ cs, c ≠ 'P') :
    subTZ cs = cs :=
  subTZAux_id cs.length cs h

theorem stripChars_eq_self (cs : List Char)
    (h1 : ∀ c, cs.head? = some c → isSpaceChar c = false)
    (h2 : ∀ c, cs.getLast? = some c → isSpaceChar c = false) :
    stripChars cs = cs := by
  unfold stripChars
  rw [dropWhile_of_head_false cs h1]
  rw [dropWhile_of_head_false cs.reverse
      (fun c hc => h2 c (by rwa [List.head?_reverse] at hc))]
  exact List.reverse_reverse cs

theorem pad2_all (n : Nat) : ∀ c ∈ pad2 n, isDigitChar c = true := by
  intro c hc
  rcases List.mem_cons.mp hc with rfl | hc
  · exact isDigitChar_digitChar10 _
  · rcases List.mem_singleton.mp hc with rfl
    exact isDigitChar_digitChar10 _

theorem pad4_all (n : Nat) : ∀ c ∈ pad4 n, isDigitChar c = true := by
  intro c hc
  rcases List.mem_cons.mp hc with rfl | hc
  · exact isDigitChar_digitChar10 _
  rcases List.mem_cons.mp hc with rfl | hc
  · exact isDigitChar_digitChar10 _
  rcases List.mem_cons.mp hc with rfl | hc
  · exact isDigitChar_digitChar10 _
  rcases List.mem_singleton.mp hc with rfl
  exact isDigitChar_digitChar10 _

theorem formatISO_forall (t : PLDateTime) (P : Char → Prop)
    (hdig : ∀ c, isDigitChar c = true → P c)
    (hdash : P '-') (hsp : P ' ') (hcol : P ':') :
    ∀ c ∈ (formatISO t).data, P c := by
  intro c hc
  have hc2 : c ∈ pad4 t.year ++ '-' :: (pad2 t.month ++ '-' ::
      (pad2 t.day ++ ' ' :: (pad2 t.hour ++ ':' :: (pad2 t.minute ++
        ':' :: pad2 t.second)))) := hc
  rcases List.mem_append.mp hc2 with h | h
  · exact hdig c (pad4_all _ c h)
  rcases List.mem_cons.mp h with rfl | h
  · exact hdash
  rcases List.mem_append.mp h with h | h
  · exact hdig c (pad2_all _ c h)
  rcases List.mem_cons.mp h with rfl | h
  · exact hdash
  rcases List.mem_append.mp h with h | h
  · exact hdig c (pad2_all _ c h)
  rcases List.mem_cons.mp h with rfl | h
  · exact hsp
  rcases List.mem_append.mp h with h | h
  · exact hdig c (pad2_all _ c h)
  rcases List.mem_cons.mp h with rfl | h
  · exact hcol
  rcases List.mem_append.mp h with h | h
  · exact hdig c (pad2_all _ c h)
  rcases List.mem_cons.mp h with rfl | h
  · exact hcol
  exact hdig c (pad2_all _ c h)

theorem weekdayAbbrev_all (k : Nat) :
    ∀ c ∈ weekdayAbbrev k, c ≠ 'P' ∧ isSpaceChar c = false := by
  rcases k with _ | _ | _ | _ | _ | _ | k
  · decide
  · decide
  · decide
  · decide
  · decide
  · decide
  · show ∀ c ∈ ("Sat".data : List Char), c ≠ 'P' ∧ isSpaceChar c = false
    decide

theorem monthAbbrev_all (m : Nat) :
    ∀ c ∈ monthAbbrev m, c ≠ 'P' ∧ isSpaceChar c = false := by
  rcases m with _ | _ | _ | _ | _ | _ | _ | _ | _ | _ | _ | _ | m
  · decide
  · decide
  · decide
  · decide
  · decide
  · decide
  · decide
  · decide
  · decide
  · decide
  · decide
  · decide
  · show ∀ c ∈ ("Dec".data : List Char), c ≠ 'P' ∧ isSpaceChar c = false
    decide

theorem formatHuman_forall (t : PLDateTime) (P : Char → Prop)
    (hdig : ∀ c, isDigitChar c = true → P c)
    (hcol : P ':') (hcom : P ',') (hsp : P ' ')
    (hwd : ∀ c ∈ weekdayAbbrev (dayOfWeekIdx t.year t.month t.day), P c)
    (hmo : ∀ c ∈ monthAbbrev t.month, P c) :
    ∀ c ∈ (formatHuman t).data, P c := by
  intro c hc
  have hc2 : c ∈ pad2 t.hour ++ ':' :: (pad2 t.minute ++ ',' :: ' ' ::
      (weekdayAbbrev (dayOfWeekIdx t.year t.month t.day) ++ ',' :: ' ' ::
        (monthAbbrev t.month ++ ' ' :: pad2 t.day))) := hc
  rcases List.mem_append.mp hc2 with h | h
  · exact hdig c (pad2_all _ c h)
  rcases List.mem_cons.mp h with rfl | h
  · exact hcol
  rcases List.mem_append.mp h with h | h
  · exact hdig c (pad2_all _ c h)
  rcases List.mem_cons.mp h with rfl | h
  · exact hcom
  rcases List.mem_cons.mp h with rfl | h
  · exact hsp
  rcases List.mem_append.mp h with h | h
  · exact hwd c h
  rcases List.mem_cons.mp h with rfl | h
  · exact hcom
  rcases List.mem_cons.mp h with rfl | h
  · exact hsp
  rcases List.mem_append.mp h with h | h
  · exact hmo c h
  rcases List.mem_cons.mp h with rfl | h
  · exact hsp
  exact hdig c (pad2_all _ c h)

theorem formatISO_head (t : PLDateTime) :
    ∀ c, (formatISO t).data.head? = some c → isSpaceChar c = false := by
  intro c hc
  have hc2 : (pad4 t.year ++ '-' :: (pad2 t.month ++ '-' ::
      (pad2 t.day ++ ' ' :: (pad2 t.hour ++ ':' :: (pad2 t.minute ++
        ':' :: pad2 t.second))))).head? = some c := hc
  simp only [pad4, List.cons_append, List.head?_cons,
    Option.some.injEq] at hc2
  rw [← hc2]
  exact digit_not_space (isDigitChar_digitChar10 _)

theorem formatISO_last (t : PLDateTime) :
    ∀ c, (formatISO t).data.getLast? = some c → isSpaceChar c = false := by
  intro c hc
  have hc2 : (pad4 t.year ++ '-' :: (pad2 t.month ++ '-' ::
      (pad2 t.day ++ ' ' :: (pad2 t.hour ++ ':' :: (pad2 t.minute ++
        ':' :: pad2 t.second))))).getLast? = some c := hc
  rw [← List.head?_reverse] at hc2
  simp only [pad4, pad2, List.reverse_append, List.reverse_cons,
    List.reverse_nil, List.nil_append, List.append_assoc,
    List.cons_append, List.head?_cons, Option.some.injEq] at hc2
  rw [← hc2]
  exact digit_not_space (isDigitChar_digitChar10 _)

theorem formatHuman_head (t : PLDateTime) :
    ∀ c, (formatHuman t).data.head? = some c → isSpaceChar c = false := by
  intro c hc
  have hc2 : (pad2 t.hour ++ ':' :: (pad2 t.minute ++ ',' :: ' ' ::
      (weekdayAbbrev (dayOfWeekIdx t.year t.month t.day) ++ ',' :: ' ' ::
        (monthAbbrev t.month ++ ' ' :: pad2 t.day)))).head? = some c := hc
  simp only [pad2, List.cons_append, List.head?_cons,
    Option.some.injEq] at hc2
  rw [← hc2]
  exact digit_not_space (isDigitChar_digitChar10 _)

theorem formatHuman_last (t : PLDateTime) :
    ∀ c, (formatHuman t).data.getLast? = some c →
      isSpaceChar c = false := by
  intro c hc
  have hc2 : (pad2 t.hour ++ ':' :: (pad2 t.minute ++ ',' :: ' ' ::
      (weekdayAbbrev (dayOfWeekIdx t.year t.month t.day) ++ ',' :: ' ' ::
        (monthAbbrev t.month ++ ' ' :: pad2 t.day)))).getLast? =
      some c := hc
  rw [← List.head?_reverse] at hc2
  simp only [pad2, List.reverse_append, List.reverse_cons,
    List.reverse_nil, List.nil_append, List.append_assoc,
    List.cons_append, List.head?_cons, Option.some.injEq] at hc2
  rw [← hc2]
  exact digit_not_space (isDigitChar_digitChar10 _)

theorem hasOffsetSuffix_formatISO (t : PLDateTime) :
    hasOffsetSuffix ((formatISO t).data) = false := by
  show hasOffsetSuffix (pad4 t.year ++ '-' :: (pad2 t.month ++ '-' ::
    (pad2 t.day ++ ' ' :: (pad2 t.hour ++ ':' :: (pad2 t.minute ++
      ':' :: pad2 t.second))))) = false
  simp only [hasOffsetSuffix, pad2, pad4, List.reverse_append,
    List.reverse_cons, List.reverse_nil, List.nil_append,
    List.append_assoc, List.cons_append]
  simp

theorem hasOffsetSuffix_formatHuman (t : PLDateTime) :
    hasOffsetSuffix ((formatHuman t).data) = false := by
  show hasOffsetSuffix (pad2 t.hour ++ ':' :: (pad2 t.minute ++ ',' ::
    ' ' :: (weekdayAbbrev (dayOfWeekIdx t.year t.month t.day) ++ ',' ::
      ' ' :: (monthAbbrev t.month ++ ' ' :: pad2 t.day)))) = false
  simp only [hasOffsetSuffix, pad2, List.reverse_append,
    List.reverse_cons, List.reverse_nil, List.nil_append,
    List.append_assoc, List.cons_append]
  simp

theorem isoCandidate_format {s : String}
    (hP : ∀ c ∈ s.data, c ≠ 'P')
    (hh : ∀ c, s.data.head? = some c → isSpaceChar c = false)
    (hl : ∀ c, s.data.getLast? = some c → isSpaceChar c = false)
    (hoff : hasOffsetSuffix s.data = false) :
    isoCandidate s = s.data := by
  have hclean : cleanDateStr s = s.data := by
    unfold cleanDateStr
    rw [subTZ_id _ hP, stripChars_eq_self _ hh hl]
  unfold isoCandidate
  simp only [hclean, hoff, Bool.false_eq_true, if_false]

theorem isoCandidate_formatISO (t : PLDateTime) :
    isoCandidate (formatISO t) = (formatISO t).data :=
  isoCandidate_format
    (formatISO_forall t (fun c => c ≠ 'P') (fun c h => digit_ne_P h)
      (by decide) (by decide) (by decide))
    (formatISO_head t) (formatISO_last t) (hasOffsetSuffix_formatISO t)

theorem isoCandidate_formatHuman (t : PLDateTime) :
    isoCandidate (formatHuman t) = (formatHuman t).data :=
  isoCandidate_format
    (formatHuman_forall t (fun c => c ≠ 'P') (fun c h => digit_ne_P h)
      (by decide) (by decide) (by decide)
      (fun c hc => (weekdayAbbrev_all _ c hc).1)
      (fun c hc => (monthAbbrev_all _ c hc).1))
    (formatHuman_head t) (formatHuman_last t)
    (hasOffsetSuffix_formatHuman t)

theorem strptimeISO_formatHuman_fails (t : PLDateTime) :
    strptimeISO ((formatHuman t).data) = none := by
  have h4 : parseYear4 ((formatHuman t).data) = none := by
    show parseYear4 (pad2 t.hour ++ ':' :: (pad2 t.minute ++ ',' ::
      ' ' :: (weekdayAbbrev (dayOfWeekIdx t.year t.month t.day) ++ ',' ::
        ' ' :: (monthAbbrev t.month ++ ' ' :: pad2 t.day)))) = none
    simp only [pad2, List.cons_append, List.nil_append, parseYear4]
    rw [if_neg]
    intro hcond
    exact absurd hcond.2.2.1 (by decide)
  simp only [strptimeISO, h4]

theorem formatISO_ne_special (t : PLDateTime) :
    ¬ (formatISO t = "" ∨ formatISO t = "—") := by
  have hlen : (formatISO t).data.length = 19 := by
    show (pad4 t.year ++ '-' :: (pad2 t.month ++ '-' :: (pad2 t.day ++
      ' ' :: (pad2 t.hour ++ ':' :: (pad2 t.minute ++ ':' ::
        pad2 t.second))))).length = 19
    simp [pad2, pad4]
  rintro (he | he) <;> rw [he] at hlen <;> simp at hlen

theorem formatHuman_ne_special (t : PLDateTime) :
    ¬ (formatHuman t = "" ∨ formatHuman t = "—") := by
  have hwd : (weekdayAbbrev (dayOfWeekIdx t.year t.month t.day)).length
      = 3 := by
    rcases dayOfWeekIdx t.year t.month t.day with _ | _ | _ | _ | _ | _ | k
      <;> rfl
  have hmo : (monthAbbrev t.month).length = 3 := by
    rcases t.month with _ | _ | _ | _ | _ | _ | _ | _ | _ | _ | _ | _ | m
      <;> rfl
  have hlen : (formatHuman t).data.length = 18 := by
    show (pad2 t.hour ++ ':' :: (pad2 t.minute ++ ',' :: ' ' ::
      (weekdayAbbrev (dayOfWeekIdx t.year t.month t.day) ++ ',' :: ' ' ::
        (monthAbbrev t.month ++ ' ' :: pad2 t.day)))).length = 18
    simp [pad2, hwd, hmo]
  rintro (he | he) <;> rw [he] at hlen <;> simp at hlen

theorem parse_date_formatISO (t : PLDateTime) (y : Nat)
    (hy1 : 1 ≤ t.year) (hy2 : t.year ≤ 9999)
    (hm1 : 1 ≤ t.month) (hm2 : t.month ≤ 12)
    (hd1 : 1 ≤ t.day) (hd2 : t.day ≤ daysInMonth t.year t.month)
    (hh : t.hour ≤ 23) (hmi : t.minute ≤ 59) (hs : t.second ≤ 59) :
    parse_date (formatISO t) y = some t := by
  unfold parse_date
  rw [if_neg (formatISO_ne_special t)]
  simp only [isoCandidate_formatISO t,
    strptimeISO_format t hy1 hy2 hm1 hm2 hd1 hd2 hh hmi hs]

theorem parse_date_formatHuman (t : PLDateTime) (y : Nat)
    (hty : t.year = y) (hy3 : 1000 ≤ y) (hy4 : y ≤ 9999)
    (hm1 : 1 ≤ t.month) (hm2 : t.month ≤ 12)
    (hd1 : 1 ≤ t.day) (hd2 : t.day ≤ daysInMonth t.year t.month)
    (hh : t.hour ≤ 23) (hmi : t.minute ≤ 59) (hsec : t.second = 0) :
    parse_date (formatHuman t) y = some t := by
  unfold parse_date
  rw [if_neg (formatHuman_ne_special t)]
  simp only [isoCandidate_formatHuman t, strptimeISO_formatHuman_fails t,
    strptimeHuman_format t y hty hy3 hy4 hm1 hm2 hd1 hd2 hh hmi hsec]

theorem parseField_bound {lo hi : Nat} {z : Bool} {cs rest : List Char}
    {v : Nat} (h : parseField lo hi z cs = some (v, rest))
    (h9 : 9 ≤ hi) (hz1 : z = true → lo = 0) (hz2 : z = false → lo = 1) :
    lo ≤ v ∧ v ≤ hi := by
  match cs, h with
  | c1 :: c2 :: rest0, h =>
      rw [parseField] at h
      split at h
      · rename_i hcond
        cases h
        exact ⟨hcond.2.2.1, hcond.2.2.2⟩
      · split at h
        · rename_i hcond
          cases h
          have h9v := digitVal_le_nine hcond.1
          rcases hb : z with _ | _
          · rcases hcond.2 with hb2 | hb2
            · rw [hb] at hb2; cases hb2
            · have := digitVal_pos hcond.1 hb2
              rw [hz2 hb]
              omega
          · rw [hz1 hb]
            omega
        · cases h
  | [c1], h =>
      rw [parseField] at h
      split at h
      · rename_i hcond
        cases h
        have h9v := digitVal_le_nine hcond.1
        rcases hb : z with _ | _
        · rcases hcond.2 with hb2 | hb2
          · rw [hb] at hb2; cases hb2
          · have := digitVal_pos hcond.1 hb2
            rw [hz2 hb]
            omega
        · rw [hz1 hb]
          omega
      · cases h

theorem parseField_suffix {lo hi : Nat} {z : Bool} {cs rest : List Char}
    {v : Nat} (h : parseField lo hi z cs = some (v, rest)) :
    rest <:+ cs := by
  match cs, h with
  | c1 :: c2 :: rest0, h =>
      rw [parseField] at h
      split at h
      · cases h
        exact ⟨[c1, c2], rfl⟩
      · split at h
        · cases h
          exact ⟨[c1], rfl⟩
        · cases h
  | [c1], h =>
      rw [parseField] at h
      split at h
      · cases h
        exact ⟨[c1], rfl⟩
      · cases h

theorem expectChar_elim {c : Char} {cs rest : List Char}
    (h : expectChar c cs = some rest) : cs = c :: rest := by
  match cs, h with
  | x :: rest0, h =>
      rw [expectChar] at h
      split at h
      · rename_i hx
        cases h
        rw [hx]
      · cases h
  | [], h => cases h

theorem expectChar_suffix {c : Char} {cs rest : List Char}
    (h : expectChar c cs = some rest) : rest <:+ cs := by
  rw [expectChar_elim h]
  exact ⟨[c], rfl⟩

theorem parseAbbrev_suffix {names : List String} {cs rest : List Char}
    {i : Nat} (h : parseAbbrev names cs = some (i, rest)) :
    rest <:+ cs := by
  match cs, h with
  | a :: b :: c :: rest0, h =>
      rw [parseAbbrev] at h
      split at h
      · cases h
        exact ⟨[a, b, c], rfl⟩
      · cases h

theorem parseAbbrev_lt {names : List String} {cs rest : List Char}
    {i : Nat} (h : parseAbbrev names cs = some (i, rest)) :
    i < names.length := by
  match cs, h with
  | a :: b :: c :: rest0, h =>
      rw [parseAbbrev] at h
      split at h
      · rename_i j hj
        cases h
        exact List.findIdx?_eq_some_iff_findIdx_eq.mp hj |>.1
      · cases h

theorem expectWs_decomp {cs rest : List Char}
    (h : expectWs cs = some rest) :
    ∃ pre w, cs = pre ++ rest ∧ pre.getLast? = some w ∧
      isSpaceChar w = true := by
  match cs, h with
  | x :: rest0, h =>
      rw [expectWs] at h
      split at h
      · rename_i hx
        cases h
        refine ⟨x :: rest0.takeWhile isSpaceChar, ?_⟩
        rcases htw : rest0.takeWhile isSpaceChar with _ | ⟨a, tl⟩
        · refine ⟨x, ?_, rfl, hx⟩
          have := @List.takeWhile_append_dropWhile Char isSpaceChar rest0
          rw [htw] at this
          simp only [List.nil_append] at this
          rw [this]
          rfl
        · have hlast : (a :: tl).getLast?.isSome := by
            rw [List.getLast?_isSome]
            exact List.cons_ne_nil a tl
          obtain ⟨w, hw⟩ := Option.isSome_iff_exists.mp hlast
          refine ⟨w, ?_, ?_, ?_⟩
          · have := @List.takeWhile_append_dropWhile Char isSpaceChar rest0
            rw [htw] at this
            rw [List.cons_append, this]
          · rw [List.getLast?_cons_cons, hw]
          · have hmem : w ∈ rest0.takeWhile isSpaceChar := by
              rw [htw]
              exact List.mem_of_mem_getLast? hw
            exact List.mem_takeWhile_imp hmem
      · cases h

theorem parseYear4_elim {cs rest : List Char} {y : Nat}
    (h : parseYear4 cs = some (y, rest)) :
    ∃ a b c d, cs = a :: b :: c :: d :: rest ∧
      isDigitChar a = true ∧ isDigitChar b = true ∧
      isDigitChar c = true ∧ isDigitChar d = true ∧
      y = 1000 * digitVal a + 100 * digitVal b + 10 * digitVal c +
        digitVal d := by
  match cs, h with
  | a :: b :: c :: d :: rest0, h =>
      rw [parseYear4] at h
      split at h
      · rename_i hcond
        cases h
        exact ⟨a, b, c, d, rfl, hcond.1, hcond.2.1, hcond.2.2.1,
          hcond.2.2.2, rfl⟩
      · cases h

theorem parseYear4_le {cs rest : List Char} {y : Nat}
    (h : parseYear4 cs = some (y, rest)) : y ≤ 9999 := by
  obtain ⟨a, b, c, d, _, ha, hb, hc, hd, hy⟩ := parseYear4_elim h
  have := digitVal_le_nine ha
  have := digitVal_le_nine hb
  have := digitVal_le_nine hc
  have := digitVal_le_nine hd
  omega

theorem suffix_of_suffix_le {l1 l2 l : List Char}
    (h1 : l1 <:+ l) (h2 : l2 <:+ l) (hle : l1.length ≤ l2.length) :
    l1 <:+ l2 := by
  obtain ⟨t1, e1⟩ := h1
  obtain ⟨t2, e2⟩ := h2
  have hlen : t1.length + l1.length = t2.length + l2.length := by
    have := congrArg List.length e1
    have := congrArg List.length e2
    simp only [List.length_append] at *
    omega
  have hk : t1.length = t2.length + (t1.length - t2.length) := by omega
  have : l1 = l2.drop (t1.length - t2.length) := by
    have hd1 : l.drop t1.length = l1 := by
      rw [← e1]; exact List.drop_left t1 l1
    rw [← hd1, ← e2, hk, List.drop_append]
    congr 1
    omega
  rw [this]
  exact List.drop_suffix _ _

theorem strptimeISO_wf {cs : List Char} {t : PLDateTime}
    (h : strptimeISO cs = some t) :
    1 ≤ t.year ∧ t.year ≤ 9999 ∧ 1 ≤ t.month ∧ t.month ≤ 12 ∧
    1 ≤ t.day ∧ t.day ≤ daysInMonth t.year t.month ∧ t.hour ≤ 23 ∧
    t.minute ≤ 59 ∧ t.second ≤ 59 := by
  rw [strptimeISO] at h
  split at h
  · cases h
  rename_i y cs1 hY
  split at h
  · cases h
  rename_i cs2 hC1
  split at h
  · cases h
  rename_i mo cs3 hM
  split at h
  · cases h
  rename_i cs4 hC2
  split at h
  · cases h
  rename_i d cs5 hD
  split at h
  · cases h
  rename_i cs6 hW
  split at h
  · cases h
  rename_i hh cs7 hH
  split at h
  · cases h
  rename_i cs8 hC3
  split at h
  · cases h
  rename_i mi cs9 hMI
  split at h
  · cases h
  rename_i cs10 hC4
  split at h
  · cases h
  rename_i s cs11 hS
  split at h
  swap
  · cases h
  rename_i hcond
  injection h with h
  subst h
  have hmB := parseField_bound hM (by omega) (by decide) (by decide)
  have hdB := parseField_bound hD (by omega) (by decide) (by decide)
  have hhB := parseField_bound hH (by omega) (by decide) (by decide)
  have hmiB := parseField_bound hMI (by omega) (by decide) (by decide)
  exact ⟨hcond.2.1, parseYear4_le hY, hmB.1, hmB.2, hdB.1,
    hcond.2.2.1, hhB.2, hmiB.2, hcond.2.2.2⟩

theorem strptimeHuman_wf {cs : List Char} {y : Nat} {t : PLDateTime}
    (h : strptimeHuman (cs ++ ' ' :: natDigits y) = some t) :
    t.year = y ∧ 1000 ≤ y ∧ y ≤ 9999 ∧ 1 ≤ t.month ∧ t.month ≤ 12 ∧
    1 ≤ t.day ∧ t.day ≤ daysInMonth t.year t.month ∧ t.hour ≤ 23 ∧
    t.minute ≤ 59 ∧ t.second = 0 := by
  rw [strptimeHuman] at h
  split at h
  · cases h
  rename_i hh cs1 hH
  split at h
  · cases h
  rename_i cs2 hC1
  split at h
  · cases h
  rename_i mi cs3 hMI
  split at h
  · cases h
  rename_i cs4 hC2
  split at h
  · cases h
  rename_i cs5 hW1
  split at h
  · cases h
  rename_i wd cs6 hWD
  split at h
  · cases h
  rename_i cs7 hC3
  split at h
  · cases h
  rename_i cs8 hW2
  split at h
  · cases h
  rename_i mi0 cs9 hMO
  split at h
  · cases h
  rename_i cs10 hW3
  split at h
  · cases h
  rename_i d cs11 hD
  split at h
  · cases h
  rename_i cs12 hW4
  split at h
  · cases h
  rename_i y2 cs13 hY
  split at h
  swap
  · cases h
  rename_i hcond
  injection h with h
  subst h
  have hws5 : cs5 <:+ cs4 := by
    obtain ⟨pre, w, he, _, _⟩ := expectWs_decomp hW1
    exact ⟨pre, he.symm⟩
  have hws8 : cs8 <:+ cs7 := by
    obtain ⟨pre, w, he, _, _⟩ := expectWs_decomp hW2
    exact ⟨pre, he.symm⟩
  have hws10 : cs10 <:+ cs9 := by
    obtain ⟨pre, w, he, _, _⟩ := expectWs_decomp hW3
    exact ⟨pre, he.symm⟩
  have hs11 : cs11 <:+ cs ++ ' ' :: natDigits y :=
    ((((((((((parseField_suffix hD).trans hws10).trans
      (parseAbbrev_suffix hMO)).trans hws8).trans
      (expectChar_suffix hC3)).trans
      (parseAbbrev_suffix hWD)).trans hws5).trans
      (expectChar_suffix hC2)).trans
      (parseField_suffix hMI)).trans
      (expectChar_suffix hC1)).trans
      (parseField_suffix hH)
  obtain ⟨pre2, w, he2, hlast2, hws⟩ := expectWs_decomp hW4
  obtain ⟨a, b, c, dd, he4, ha, hb, hc, hd, hy2⟩ := parseYear4_elim hY
  rw [hcond.1] at he4
  obtain ⟨pre0, he0⟩ := hs11
  have hPRE : (pre0 ++ pre2) ++ [a, b, c, dd] =
      cs ++ ' ' :: natDigits y := by
    calc (pre0 ++ pre2) ++ [a, b, c, dd]
        = pre0 ++ (pre2 ++ [a, b, c, dd]) := List.append_assoc _ _ _
      _ = pre0 ++ (pre2 ++ cs12) := by rw [← he4]
      _ = pre0 ++ cs11 := by rw [← he2]
      _ = cs ++ ' ' :: natDigits y := he0
  have hpre2ne : pre2 ≠ [] := by
    intro he
    rw [he] at hlast2
    cases hlast2
  have hPREl : (pre0 ++ pre2).getLast? = some w := by
    rw [List.getLast?_append_of_ne_nil _ hpre2ne]
    exact hlast2
  by_cases hA : y ≤ 999
  · exfalso
    have hnd : (' ' :: natDigits y) <:+ cs ++ ' ' :: natDigits y :=
      ⟨cs, rfl⟩
    have hfour : [a, b, c, dd] <:+ cs ++ ' ' :: natDigits y :=
      ⟨pre0 ++ pre2, hPRE⟩
    have hlen : (' ' :: natDigits y).length ≤ [a, b, c, dd].length := by
      have := natDigits_len_le_three hA
      simp only [List.length_cons, List.length_nil]
      omega
    have hsub := suffix_of_suffix_le hnd hfour hlen
    have hmem : ' ' ∈ [a, b, c, dd] :=
      hsub.sublist.subset (List.mem_cons_self _ _)
    rcases List.mem_cons.mp hmem with he | hmem
    · rw [← he] at ha; exact absurd ha (by decide)
    rcases List.mem_cons.mp hmem with he | hmem
    · rw [← he] at hb; exact absurd hb (by decide)
    rcases List.mem_cons.mp hmem with he | hmem
    · rw [← he] at hc; exact absurd hc (by decide)
    rcases List.mem_cons.mp hmem with he | hmem
    · rw [← he] at hd; exact absurd hd (by decide)
    cases hmem
  by_cases hB : 10000 ≤ y
  · exfalso
    have h5 : 5 ≤ (natDigits y).length := natDigits_len_ge_five hB
    have hre : cs ++ ' ' :: natDigits y =
        (cs ++ ' ' :: (natDigits y).take ((natDigits y).length - 4)) ++
          (natDigits y).drop ((natDigits y).length - 4) := by
      conv_lhs =>
        rw [← List.take_append_drop ((natDigits y).length - 4)
          (natDigits y)]
      simp [List.append_assoc]
    have hinj := List.append_inj' (hPRE.trans hre)
      (by simp [List.length_drop]; omega)
    obtain ⟨hpre_eq, _⟩ := hinj
    have htkne : (natDigits y).take ((natDigits y).length - 4) ≠ [] := by
      intro he
      have := congrArg List.length he
      simp [List.length_take] at this
      omega
    obtain ⟨th, tt, htk⟩ := List.exists_cons_of_ne_nil htkne
    have hlasttk : (pre0 ++ pre2).getLast? =
        ((natDigits y).take ((natDigits y).length - 4)).getLast? := by
      rw [hpre_eq, List.getLast?_append_of_ne_nil _
        (by rw [htk]; exact List.cons_ne_nil _ _)]
      rw [htk, List.getLast?_cons_cons, ← htk]
    rw [hPREl] at hlasttk
    have hwmem : w ∈ (natDigits y).take ((natDigits y).length - 4) :=
      List.mem_of_mem_getLast? hlasttk.symm
    have hwnd : w ∈ natDigits y := List.take_subset _ _ hwmem
    have hwd2 := natDigits_all_digits y w hwnd
    rw [digit_not_space hwd2] at hws
    cases hws
  · have h1000 : 1000 ≤ y := by omega
    have h9999 : y ≤ 9999 := by omega
    have hpad : natDigits y = pad4 y := natDigits_eq_pad4 h1000 h9999
    have hre : cs ++ ' ' :: natDigits y =
        (cs ++ [' ']) ++ natDigits y := by simp
    have hinj := List.append_inj' (hPRE.trans hre) (by rw [hpad]; rfl)
    obtain ⟨_, hlist⟩ := hinj
    rw [hpad] at hlist
    simp only [pad4, List.cons.injEq, and_true] at hlist
    obtain ⟨ea, eb, ec, ed⟩ := hlist
    have hy : y2 = y := by
      rw [hy2, ea, eb, ec, ed,
          digitVal_digitChar10 (by omega), digitVal_digitChar10 (by omega),
          digitVal_digitChar10 (by omega), digitVal_digitChar10 (by omega)]
      omega
    have hmoB : mi0 < 12 := by
      have h12 := parseAbbrev_lt hMO
      have : monthNames.length = 12 := rfl
      omega
    have hdB := parseField_bound hD (by omega) (by decide) (by decide)
    have hhB := parseField_bound hH (by omega) (by decide) (by decide)
    have hmiB := parseField_bound hMI (by omega) (by decide) (by decide)
    exact ⟨hy, h1000, h9999, (show 1 ≤ mi0 + 1 by omega),
      (show mi0 + 1 ≤ 12 by omega), hdB.1, hcond.2.2,
      hhB.2, hmiB.2, rfl⟩

/-- Claim C9: a timestamp produced by `_parse_date`, formatted back into
its source's canonical display format — `%Y-%m-%d %H:%M:%S` when the ISO
attempt succeeded, `%H:%M, %a, %b %d` otherwise — and re-parsed at the
same current year yields the same civil date and time. -/
theorem parse_format_roundtrip (s : String) (y : Nat) (t : PLDateTime)
    (h : parse_date s y = some t) :
    parse_date (sourceFormat s t) y = some t := by
  simp only [parse_date] at h
  split at h
  · cases h
  rcases hISO : strptimeISO (isoCandidate s) with _ | t0
  · rw [hISO] at h
    rcases hHum : strptimeHuman (isoCandidate s ++ ' ' :: natDigits y)
      with _ | t1
    · rw [hHum] at h
      cases h
    · rw [hHum] at h
      injection h with h
      subst h
      obtain ⟨hty, hy3, hy4, hm1, hm2, hd1, hd2, hhh, hmi, hsec⟩ :=
        strptimeHuman_wf hHum
      have hsf : sourceFormat s t1 = formatHuman t1 := by
        unfold sourceFormat
        rw [hISO]
        rfl
      rw [hsf]
      exact parse_date_formatHuman t1 y hty hy3 hy4 hm1 hm2 hd1 hd2
        hhh hmi hsec
  · rw [hISO] at h
    injection h with h
    subst h
    obtain ⟨hy1, hy2, hm1, hm2, hd1, hd2, hhh, hmi, hs⟩ :=
      strptimeISO_wf hISO
    have hsf : sourceFormat s t0 = formatISO t0 := by
      unfold sourceFormat
      rw [hISO]
      rfl
    rw [hsf]
    exact parse_date_formatISO t0 y hy1 hy2 hm1 hm2 hd1 hd2 hhh hmi hs

theorem parse_format_roundtrip_witness :
    parse_date
      (sourceFormat "2025-04-25 23:59:59" ⟨2025, 4, 25, 23, 59, 59⟩)
      2025 = some ⟨2025, 4, 25, 23, 59, 59⟩ :=
  parse_format_roundtrip "2025-04-25 23:59:59" 2025
    ⟨2025, 4, 25, 23, 59, 59⟩ (by decide)
